import Mathlib

/-!
Verification of the LaTeX formatter core (`src/latex_formatter.py`).

Text is modelled as `List Char` (`Str`).  Python string operations
(`str.replace`, `str.split("\n")`, `str.rstrip`, …) are embedded as
executable functions, and each regular-expression substitution of the
source is embedded as a hand-rolled scanner with the same matching
semantics (leftmost, non-overlapping, with the greedy/lazy behaviour of
the concrete pattern).  Whitespace and character classes follow the
ASCII fragment used by the source.
-/

set_option maxRecDepth 20000
set_option linter.unusedVariables false

namespace LatexFmt

abbrev Str := List Char

/-- Opening brace character, written via its code point. -/
def lbrace : Char := Char.ofNat 123

/-- Closing brace character, written via its code point. -/
def rbrace : Char := Char.ofNat 125

/-- Single-quote character. -/
def squote : Char := Char.ofNat 39

/-- Backtick character. -/
def btick : Char := Char.ofNat 96

/-- Python whitespace test (`str.isspace` / regex `\s`), ASCII fragment. -/
def isWS (c : Char) : Bool :=
  c = ' ' || c = '\t' || c = '\n' || c = '\r' || c = '\x0b' || c = '\x0c'

/-- ASCII letter test (regex `[a-zA-Z]`). -/
def isLetter (c : Char) : Bool := c.isAlpha

/-- ASCII digit test (regex `\d`). -/
def isDigit (c : Char) : Bool := c.isDigit

/-- ASCII alphanumeric test (regex `[a-zA-Z0-9]`). -/
def isAlnum (c : Char) : Bool := c.isAlpha || c.isDigit

/-- Regex word-character test `\w` (ASCII fragment). -/
def isWordChar (c : Char) : Bool := c.isAlpha || c.isDigit || c = '_'

/-- Uppercase ASCII letter test (regex `[A-Z]`). -/
def isUpper (c : Char) : Bool := 'A' ≤ c && c ≤ 'Z'

/-- Lowercase ASCII letter test (regex `[a-z]`). -/
def isLower (c : Char) : Bool := 'a' ≤ c && c ≤ 'z'

/-- Length of the maximal head run of characters satisfying `p`. -/
def runLen (p : Char → Bool) : Str → Nat
  | [] => 0
  | c :: cs => if p c then runLen p cs + 1 else 0

/-- Does `pat` occur as a prefix of `s`? -/
def leadsWith : Str → Str → Bool
  | [], _ => true
  | _ :: _, [] => false
  | p :: ps, c :: cs => p = c && leadsWith ps cs

/-- Does `pat` occur at position `i` of `s`? -/
def matchAt (pat s : Str) (i : Nat) : Bool := leadsWith pat (s.drop i)

/-- Index of the first occurrence of `pat` in `s` (Python `str.find`). -/
def findFirst (pat : Str) : Str → Option Nat
  | [] => if leadsWith pat [] then some 0 else none
  | c :: cs =>
    if leadsWith pat (c :: cs) then some 0
    else (findFirst pat cs).map (· + 1)

/-- Does `pat` occur anywhere in `s` (Python `in`)? -/
def hasSub (pat s : Str) : Bool := (findFirst pat s).isSome

/-- Python `str.replace(old, new)`, fuelled so that the recursion is
structural and kernel-reducible: replace all non-overlapping occurrences
of `old`, left to right.  (All uses in the source have a nonempty
`old`.)  The fuel is adequate whenever `s.length ≤ fuel`. -/
def replaceAllF (old new : Str) : Nat → Str → Str
  | 0, s => s
  | _ + 1, [] => []
  | fuel + 1, c :: cs =>
    if old ≠ [] ∧ leadsWith old (c :: cs) then
      new ++ replaceAllF old new fuel (cs.drop (old.length - 1))
    else
      c :: replaceAllF old new fuel cs

/-- Python `str.replace(old, new)`. -/
def replaceAll (old new : Str) (s : Str) : Str := replaceAllF old new s.length s

/-- Python `str.split("\n")`: always returns at least one piece. -/
def splitNL : Str → List Str
  | [] => [[]]
  | c :: cs =>
    if c = '\n' then [] :: splitNL cs
    else
      match splitNL cs with
      | l :: ls => (c :: l) :: ls
      | [] => [[c]]

/-- Python `"\n".join(lines)`. -/
def joinNL : List Str → Str
  | [] => []
  | [l] => l
  | l :: ls => l ++ '\n' :: joinNL ls

/-- Python `str.lstrip()` (ASCII whitespace). -/
def pyLstrip (s : Str) : Str := s.dropWhile (fun c => isWS c)

/-- Python `str.rstrip()` (ASCII whitespace). -/
def pyRstrip (s : Str) : Str := (s.reverse.dropWhile (fun c => isWS c)).reverse

/-- Python `str.strip()` (ASCII whitespace). -/
def pyStrip (s : Str) : Str := pyRstrip (pyLstrip s)

/-- Is the line blank, i.e. `line.strip() == ""`? -/
def isBlank (s : Str) : Bool := pyStrip s = []

/-- Fuelled decimal-digit computation (`natDigits` below supplies
adequate fuel: any `fuel > n` works). -/
def natDigitsF : Nat → Nat → Str
  | 0, _ => []
  | fuel + 1, n =>
    if n < 10 then [Char.ofNat (48 + n)]
    else natDigitsF fuel (n / 10) ++ [Char.ofNat (48 + n % 10)]

/-- Decimal digits of a natural number, as produced by Python `f"{n}"`. -/
def natDigits (n : Nat) : Str := natDigitsF (n + 1) n

/-! ### Generic scanning drivers

`re.sub` replaces the leftmost non-overlapping matches; a matcher is
given the text from the current position and returns the match length
together with the replacement text.  None of the embedded patterns can
match the empty string, and the drivers skip a character when a matcher
would report a zero-length match, which mirrors that fact. -/

/-- Fuelled driver for `re.sub` with a lookbehind-free pattern.  The
fuel is adequate whenever `s.length ≤ fuel`. -/
def subScanF (m : Str → Option (Nat × Str)) : Nat → Str → Str
  | 0, s => s
  | _ + 1, [] => []
  | fuel + 1, c :: cs =>
    match m (c :: cs) with
    | some (len, rep) =>
      if len = 0 then c :: subScanF m fuel cs
      else rep ++ subScanF m fuel ((c :: cs).drop len)
    | none => c :: subScanF m fuel cs

/-- Driver for `re.sub` with a lookbehind-free pattern. -/
def subScan (m : Str → Option (Nat × Str)) (s : Str) : Str := subScanF m s.length s

/-- Fuelled driver for `re.sub` where the pattern inspects the character
just before the match (lookbehind); `prev` is that character in the text
being scanned. -/
def subScanPF (m : Option Char → Str → Option (Nat × Str)) :
    Nat → Option Char → Str → Str
  | 0, _, s => s
  | _ + 1, _, [] => []
  | fuel + 1, prev, c :: cs =>
    match m prev (c :: cs) with
    | some (len, rep) =>
      if len = 0 then c :: subScanPF m fuel (some c) cs
      else rep ++ subScanPF m fuel (((c :: cs).take len).getLast?) ((c :: cs).drop len)
    | none => c :: subScanPF m fuel (some c) cs

/-- Driver for `re.sub` with a lookbehind. -/
def subScanP (m : Option Char → Str → Option (Nat × Str)) (s : Str) : Str :=
  subScanPF m s.length none s

/-- Fuelled driver for `re.finditer`: spans `(start, stop)` of the
leftmost non-overlapping matches.  The matcher returns the match
length. -/
def scanSpansF (m : Str → Option Nat) : Nat → Str → Nat → List (Nat × Nat)
  | 0, _, _ => []
  | _ + 1, [], _ => []
  | fuel + 1, c :: cs, pos =>
    match m (c :: cs) with
    | some len =>
      if len = 0 then scanSpansF m fuel cs (pos + 1)
      else (pos, pos + len) :: scanSpansF m fuel ((c :: cs).drop len) (pos + len)
    | none => scanSpansF m fuel cs (pos + 1)

/-- Driver for `re.finditer`. -/
def scanSpans (m : Str → Option Nat) (s : Str) : List (Nat × Nat) :=
  scanSpansF m s.length s 0

/-! ### Syntax validator (`check_syntax` and helpers) -/

/-- Marker constants for verbatim-style environments. -/
def verbatimBegin : Str := "\\begin{verbatim}".data

/-- End marker of a verbatim environment. -/
def verbatimEnd : Str := "\\end{verbatim}".data

/-- Begin marker of an lstlisting environment. -/
def lstBegin : Str := "\\begin{lstlisting}".data

/-- End marker of an lstlisting environment. -/
def lstEnd : Str := "\\end{lstlisting}".data

/-- Embeds `re.sub(bTag + ".*?" + eTag, "", s, flags=DOTALL)` for literal
tags: scan for the leftmost begin tag; if an end tag follows, delete
through it and continue after; a begin tag with no end tag after it
matches nothing (and then no later begin tag can match either, so the
remainder is kept).  The tags used are nonempty; the guard on `bTag`
keeps the recursion total. -/
def removeDelimitedF (bTag eTag : Str) : Nat → Str → Str
  | 0, s => s
  | _ + 1, [] => []
  | fuel + 1, c :: cs =>
    if bTag ≠ [] ∧ leadsWith bTag (c :: cs) then
      match findFirst eTag ((c :: cs).drop bTag.length) with
      | none => c :: cs
      | some j =>
        removeDelimitedF bTag eTag fuel (((c :: cs).drop bTag.length).drop (j + eTag.length))
    else c :: removeDelimitedF bTag eTag fuel cs

/-- Block removal with adequate fuel. -/
def removeDelimited (bTag eTag : Str) (s : Str) : Str :=
  removeDelimitedF bTag eTag s.length s

/-- Cut position of a text piece before a block: the first position at
which the begin tag starts, once the text is followed by a begin tag
(the scan can enter a skip from inside the piece when the piece holds a
stray begin-tag prefix; at the latest the skip starts at the piece's
end, where the real begin tag sits). -/
def cutB (bTag : Str) : Str → Nat
  | [] => 0
  | c :: cs => if leadsWith bTag ((c :: cs) ++ bTag) then 0 else cutB bTag cs + 1

/-- A document assembled from delimited blocks: each piece `(t, x)`
contributes plain text `t` followed by a block with contents `x`, and
`last` closes the document. -/
def assembleDoc (bTag eTag : Str) : List (Str × Str) → Str → Str
  | [], last => last
  | (t, x) :: ps, last => t ++ bTag ++ x ++ eTag ++ assembleDoc bTag eTag ps last

/-- Well-formedness of the assembled blocks: within each segment
`t ++ bTag ++ x ++ eTag`, the first end tag is the closing one (so the
block's contents hold no end marker and none straddles a boundary). -/
def segsOK (bTag eTag : Str) : List (Str × Str) → Bool
  | [] => true
  | (t, x) :: ps =>
    decide (findFirst eTag (t ++ bTag ++ x ++ eTag)
      = some (t.length + bTag.length + x.length)) && segsOK bTag eTag ps

/-- What block removal keeps of the plain-text pieces: each piece
truncated at its cut position. -/
def docSkeleton (bTag : Str) : List Str → Str
  | [] => []
  | t :: ts => t.take (cutB bTag t) ++ docSkeleton bTag ts

/-- Strip a same-line comment: truncate at the first `%` not preceded by
a backslash (`prev` is the previous character of the line). -/
def stripLineComment : Option Char → Str → Str
  | _, [] => []
  | prev, c :: cs =>
    if c = '%' && (match prev with | none => true | some p => decide (p ≠ '\\')) then []
    else c :: stripLineComment (some c) cs

/-- Embeds `_remove_comments_and_verbatim`: verbatim blocks are removed
first, then lstlisting blocks, then same-line comments are stripped. -/
def remove_comments_and_verbatim (s : Str) : Str :=
  joinNL ((splitNL (removeDelimited lstBegin lstEnd
    (removeDelimited verbatimBegin verbatimEnd s))).map (stripLineComment none))

/-- Scanner of `_check_brace_balance`: walks the text with the stack of
open-brace positions; stops at the first unmatched closing brace.
Returns the stack at that point and whether the scan stopped early. -/
def brace_scan : Str → List Nat → Nat → (List Nat × Bool)
  | [], st, _ => (st, false)
  | c :: cs, st, i =>
    if c = lbrace then brace_scan cs (i :: st) (i + 1)
    else if c = rbrace then
      match st with
      | [] => ([], true)
      | _ :: st2 => brace_scan cs st2 (i + 1)
    else brace_scan cs st (i + 1)

/-- Diagnostic emitted for an unmatched closing brace. -/
def closingMsg : Str := "Unmatched closing braces: 1".data

/-- Diagnostic emitted for `n` unmatched opening braces. -/
def openMsg (n : Nat) : Str := "Unmatched opening braces: ".data ++ natDigits n

/-- Embeds `_check_brace_balance`. -/
def check_brace_balance (s : Str) : List Str :=
  (if (brace_scan s [] 0).2 then [closingMsg] else []) ++
  (if (brace_scan s [] 0).1 ≠ [] then [openMsg (brace_scan s [] 0).1.length] else [])

/-- Match of `\\begin\{([^}]+)\}` (or `\\end\{…\}`) at the head of `s`:
returns the total match length and the captured environment name. -/
def matchEnvMarker (kw : Str) (s : Str) : Option (Nat × Str) :=
  if leadsWith kw s then
    match s.drop kw.length with
    | c :: cs =>
      if c = lbrace then
        let name := cs.takeWhile (fun d => decide (d ≠ rbrace))
        if name.length = 0 then none
        else
          match cs.drop name.length with
          | d :: _ => if d = rbrace then some (kw.length + 1 + name.length + 1, name) else none
          | [] => none
      else none
    | [] => none
  else none

/-- Keyword of begin markers. -/
def beginKw : Str := "\\begin".data

/-- Keyword of end markers. -/
def endKw : Str := "\\end".data

/-- All `(position, name)` pairs of non-overlapping marker matches,
mirroring `re.finditer`. -/
def scanEnvMarkersF (kw : Str) : Nat → Str → Nat → List (Nat × Str)
  | 0, _, _ => []
  | _ + 1, [], _ => []
  | fuel + 1, c :: cs, pos =>
    match matchEnvMarker kw (c :: cs) with
    | some (len, name) =>
      if len = 0 then scanEnvMarkersF kw fuel cs (pos + 1)
      else (pos, name) :: scanEnvMarkersF kw fuel ((c :: cs).drop len) (pos + len)
    | none => scanEnvMarkersF kw fuel cs (pos + 1)

/-- Marker scan with adequate fuel. -/
def scanEnvMarkers (kw : Str) (s : Str) : List (Nat × Str) :=
  scanEnvMarkersF kw s.length s 0

/-- Merge the begin and end marker lists by position; ties cannot occur,
and `sorted` would order a begin before an end. `true` marks an end. -/
def mergeMarkersF : Nat → List (Nat × Str) → List (Nat × Str) → List (Bool × Str)
  | 0, _, _ => []
  | _ + 1, [], es => es.map (fun e => (true, e.2))
  | _ + 1, bs, [] => bs.map (fun b => (false, b.2))
  | fuel + 1, (bp, bn) :: bs, (ep, en) :: es =>
    if bp ≤ ep then (false, bn) :: mergeMarkersF fuel bs ((ep, en) :: es)
    else (true, en) :: mergeMarkersF fuel ((bp, bn) :: bs) es

/-- Position merge with adequate fuel. -/
def mergeMarkers (bs es : List (Nat × Str)) : List (Bool × Str) :=
  mergeMarkersF (bs.length + es.length) bs es

/-- Diagnostic for an end marker with an empty stack. -/
def unmatchedEndMsg (env : Str) : Str :=
  "Unmatched \\end\x7b".data ++ env ++ "\x7d - no corresponding \\begin".data

/-- Diagnostic for a mismatched end marker. -/
def mismatchMsg (expected env : Str) : Str :=
  "Environment mismatch: expected \\end\x7b".data ++ expected ++
    "\x7d, found \\end\x7b".data ++ env ++ "\x7d".data

/-- Diagnostic for a begin marker popped during mismatch recovery. -/
def unmatchedBeginMsg (env : Str) : Str :=
  "Unmatched \\begin\x7b".data ++ env ++ "\x7d".data

/-- Diagnostic for a begin marker left on the stack at end of document. -/
def missingEndMsg (env : Str) : Str :=
  "Unmatched environment \\begin\x7b".data ++ env ++ "\x7d - missing \\end\x7b".data ++
    env ++ "\x7d".data

/-- Diagnostic for a repeated `\begin{document}`. -/
def multiDocMsg : Str :=
  "Multiple \\begin{document} environments found - only one is allowed".data

/-- Mismatch-recovery pop: removes frames above the first frame equal to
`env` (issuing them), then removes that frame, exactly as the
`while`/`pop` block of the source.  The head of the list is the top of
the stack. -/
def popUntil (env : Str) : List Str → (List Str × List Str)
  | [] => ([], [])
  | e :: st =>
    if e = env then ([], st)
    else
      let r := popUntil env st
      (e :: r.1, r.2)

/-- Replay of the begin/end markers against a stack (the loop body of
`_check_environment_balance`); returns the issues in emission order and
the final stack. -/
def env_replay : List (Bool × Str) → List Str → List Str → (List Str × List Str)
  | [], st, iss => (iss, st)
  | (false, env) :: rest, st, iss => env_replay rest (env :: st) iss
  | (true, env) :: rest, st, iss =>
    match st with
    | [] => env_replay rest [] (iss ++ [unmatchedEndMsg env])
    | top :: st2 =>
      if top = env then env_replay rest st2 iss
      else if env ∈ top :: st2 then
        env_replay rest (popUntil env (top :: st2)).2
          ((iss ++ [mismatchMsg top env]) ++ (popUntil env (top :: st2)).1.map unmatchedBeginMsg)
      else env_replay rest (top :: st2) (iss ++ [mismatchMsg top env])

/-- Embeds `_check_environment_balance`. -/
def check_environment_balance (s : Str) : List Str :=
  let begins := scanEnvMarkers beginKw s
  let ends := scanEnvMarkers endKw s
  let docIssues :=
    if 1 < (begins.filter (fun b => b.2 = "document".data)).length then [multiDocMsg] else []
  let r := env_replay (mergeMarkers begins ends) [] []
  docIssues ++ r.1 ++ r.2.reverse.map missingEndMsg

/-- Embeds `check_syntax` (the returned list of diagnostics). -/
def check_content (s : Str) : List Str :=
  check_brace_balance (remove_comments_and_verbatim s) ++
  check_environment_balance (remove_comments_and_verbatim s)

/-! ### Specification-side notions for the brace check -/

/-- Length of the prefix scanned by the brace check when the depth of
already-open braces is `d`: the scan stops just before the first
closing brace that has no matching opening brace. -/
def scanCut : Str → Nat → Nat
  | [], _ => 0
  | c :: cs, d =>
    if c = lbrace then scanCut cs (d + 1) + 1
    else if c = rbrace then (if d = 0 then 0 else scanCut cs (d - 1) + 1)
    else scanCut cs d + 1

/-- Number of opening braces of `s` that are not matched by a later
closing brace of `s`, starting from `d` already-open braces (counter
formulation, independent of the checker's stack). -/
def openCount : Str → Nat → Nat
  | [], d => d
  | c :: cs, d =>
    if c = lbrace then openCount cs (d + 1)
    else if c = rbrace then openCount cs (d - 1)
    else openCount cs d

/-! ### Blank-line compression (`compress_empty_lines`) -/

/-- Loop body of `compress_empty_lines`: `cnt` is the current count of
consecutive blank lines; a blank line is kept (normalised to the empty
line) only while the count stays within `maxEmpty`. -/
def compressLinesGo (maxEmpty : Nat) : Nat → List Str → List Str
  | _, [] => []
  | cnt, l :: ls =>
    if isBlank l then
      if cnt + 1 ≤ maxEmpty then [] :: compressLinesGo maxEmpty (cnt + 1) ls
      else compressLinesGo maxEmpty (cnt + 1) ls
    else l :: compressLinesGo maxEmpty 0 ls

/-- Embeds `compress_empty_lines` with the toggle enabled; `maxEmpty` is
the configured `max_empty_lines` value. -/
def compress_empty_lines (maxEmpty : Nat) (content : Str) : Str :=
  joinNL (compressLinesGo maxEmpty 0 (splitNL content))

/-- Specification-side run check: scanning with the current blank-run
length `cur`, every run of blank lines has length at most `m`. -/
def blankRunsLE (m : Nat) : Nat → List Str → Bool
  | _, [] => true
  | cur, l :: ls =>
    if isBlank l then decide (cur + 1 ≤ m) && blankRunsLE m (cur + 1) ls
    else blankRunsLE m 0 ls

/-! ### Table alignment (`align_table_rows`) -/

/-- Python `row.split("&")`. -/
def splitAmp : Str → List Str
  | [] => [[]]
  | c :: cs =>
    if c = '&' then [] :: splitAmp cs
    else
      match splitAmp cs with
      | l :: ls => (c :: l) :: ls
      | [] => [[c]]

/-- Python `", ".join`-style join with a separator. -/
def joinSep (sep : Str) : List Str → Str
  | [] => []
  | [l] => l
  | l :: ls => l ++ sep ++ joinSep sep ls

/-- Python `str.ljust(w)`. -/
def ljust (s : Str) (w : Nat) : Str := s ++ List.replicate (w - s.length) ' '

/-- Does `s` end with `suf`? (Python `str.endswith`). -/
def endsWith (suf s : Str) : Bool := leadsWith suf.reverse s.reverse

/-- Python `col.rstrip("\\")`: strip trailing backslashes. -/
def rstripBackslash (s : Str) : Str :=
  (s.reverse.dropWhile (fun c => c = '\\')).reverse

/-- Row splitting of `align_table_rows`: comment rows and rows without
an ampersand pass through as one-element lists; other rows are split at
ampersands and each cell is stripped (in the source both branches of
the inner conditional append `part.strip()`). -/
def split_rows_entry (row : Str) : List Str :=
  if leadsWith "%".data (pyStrip row) then [row]
  else if hasSub "&".data row then (splitAmp row).map pyStrip
  else [row]

/-- Width update of one genuine table row: `col_widths[i] =
max(col_widths[i], len(col))` for each cell index inside the width
list; extra cells beyond the width list are ignored and missing cells
leave the remaining widths unchanged. -/
def updateWidths : List Nat → List Str → List Nat
  | ws, [] => ws
  | [], _ => []
  | w :: ws, c :: cs => (max w c.length) :: updateWidths ws cs

/-- Column-width computation over all genuine (multi-cell) rows. -/
def tableColWidths (split_rows : List (List Str)) (max_cols : Nat) : List Nat :=
  split_rows.foldl (fun ws r => if 1 < r.length then updateWidths ws r else ws)
    (List.replicate max_cols 0)

/-- Maximum of a list of naturals (Python `max`, with 0 for empty). -/
def maxList (l : List Nat) : Nat := l.foldr max 0

/-- Cell padding: every cell whose index is below `total - 1` is
left-justified to its column width; the cell at index `total - 1` (and
beyond) is left unpadded. -/
def padCells (ws : List Nat) (total : Nat) : Nat → List Str → List Str
  | _, [] => []
  | i, c :: cs =>
    (if i < total - 1 then ljust c (ws.getD i 0) else c) :: padCells ws total (i + 1) cs

/-- Reconstruction of one aligned row, including the `\\\\` line-ending
handling of the source. -/
def alignRow (col_widths : List Nat) (r : List Str) : Str :=
  if r.length = 1 then r.headD []
  else
    let padded := padCells col_widths col_widths.length 0 r
    if r.any (fun c => endsWith "\\\\".data c) then
      joinSep " & ".data (padded.map (fun c => pyRstrip (rstripBackslash c))) ++ " \\\\".data
    else joinSep " & ".data padded

/-- Embeds `align_table_rows`. -/
def align_table_rows (rows : List Str) : List Str :=
  if rows = [] then rows
  else
    let split_rows := rows.map split_rows_entry
    let table_rows := split_rows.filter (fun r => 1 < r.length)
    if table_rows = [] then split_rows.map (fun r => r.headD [])
    else
      let max_cols := maxList (table_rows.map List.length)
      if max_cols ≤ 1 then
        split_rows.map (fun r => if 1 < r.length then joinSep " & ".data r else r.headD [])
      else
        split_rows.map (alignRow (tableColWidths split_rows max_cols))

/-- Specification-side column width: the maximum cell length at column
index `i` over the given genuine rows (rows lacking that column
contribute 0). -/
def specWidth (trs : List (List Str)) (i : Nat) : Nat :=
  maxList (trs.map (fun r => (r.getD i []).length))

/-! ### Content protection (`_protect_scientific_content`)

The default protection patterns of `_compile_default_protection_patterns`
are embedded one by one; a protection matcher returns the length of the
match at the head of the text (the span semantics of `re.finditer`). -/

/-- Greedy split at the head: the maximal run satisfying `p` and the
rest. -/
def splitRun (p : Char → Bool) : Str → (Str × Str)
  | [] => ([], [])
  | c :: cs =>
    if p c then
      match splitRun p cs with
      | (r, rest) => (c :: r, rest)
    else ([], c :: cs)

/-- Consume a literal, or fail. -/
def eatLit (lit s : Str) : Option Str :=
  if leadsWith lit s then some (s.drop lit.length) else none

/-- Literal protection pattern. -/
def mLit (w : Str) (s : Str) : Option Nat :=
  if leadsWith w s then some w.length else none

/-- Matcher for `WORDs?\s+\d+-\d+` (the `References?`/`pages?`/
`equations?` range patterns); the optional `s` is taken when present,
after which whitespace must follow either way. -/
def mWordRange (word : Str) (s : Str) : Option Nat :=
  match eatLit word s with
  | none => none
  | some r0 =>
    let opt : Nat × Str :=
      match r0 with
      | c :: cs => if c = 's' then (1, cs) else (0, r0)
      | [] => (0, r0)
    let w := splitRun isWS opt.2
    if w.1 = [] then none
    else
      let d1 := splitRun isDigit w.2
      if d1.1 = [] then none
      else
        match d1.2 with
        | c :: cs2 =>
          if c = '-' then
            let d2 := splitRun isDigit cs2
            if d2.1 = [] then none
            else some (word.length + opt.1 + w.1.length + d1.1.length + 1 + d2.1.length)
          else none
        | [] => none

/-- One numeric part `\d+\.?\d*` (greedy; the dot is taken when
present). -/
def eatNumPart (s : Str) : Option (Nat × Str) :=
  let d1 := splitRun isDigit s
  if d1.1 = [] then none
  else
    match d1.2 with
    | c :: cs =>
      if c = '.' then
        let d2 := splitRun isDigit cs
        some (d1.1.length + 1 + d2.1.length, d2.2)
      else some (d1.1.length, d1.2)
    | [] => some (d1.1.length, [])

/-- Matcher for the numerical-range pattern `\d+\.?\d*-\d+\.?\d*`. -/
def mNumRange (s : Str) : Option Nat :=
  match eatNumPart s with
  | none => none
  | some (n1, r1) =>
    match r1 with
    | c :: cs =>
      if c = '-' then
        match eatNumPart cs with
        | some (n2, _) => some (n1 + 1 + n2)
        | none => none
      else none
    | [] => none

/-- Matcher for the package-option pattern `\[[^=\]]*=[^=\]]*\]`. -/
def mBracketOpt (s : Str) : Option Nat :=
  match s with
  | c :: cs =>
    if c = '[' then
      let rA := splitRun (fun d => !(d = '=' || d = ']')) cs
      match rA.2 with
      | d :: ds =>
        if d = '=' then
          let rB := splitRun (fun d => !(d = '=' || d = ']')) ds
          match rB.2 with
          | e :: _ =>
            if e = ']' then some (1 + rA.1.length + 1 + rB.1.length + 1) else none
          | [] => none
        else none
      | [] => none
    else none
  | [] => none

/-- Number of characters before the end of the current line. -/
def lineLen (s : Str) : Nat := (splitRun (fun c => decide (c ≠ '\n')) s).1.length

/-- Matcher for `%.*?---.*?---.*` (no DOTALL: the whole match stays on
the comment's line and extends to its end). -/
def mComment1 (s : Str) : Option Nat :=
  match s with
  | c :: t =>
    if c = '%' then
      let line := (splitRun (fun d => decide (d ≠ '\n')) t).1
      match findFirst "---".data line with
      | none => none
      | some q1 =>
        match findFirst "---".data (line.drop (q1 + 3)) with
        | none => none
        | some _ => some (1 + line.length)
      
    else none
  | [] => none

/-- Matcher for `%.*?-{10,}.*`. -/
def mComment2 (s : Str) : Option Nat :=
  match s with
  | c :: t =>
    if c = '%' then
      let line := (splitRun (fun d => decide (d ≠ '\n')) t).1
      match findFirst (List.replicate 10 '-') line with
      | none => none
      | some _ => some (1 + line.length)
    else none
  | [] => none

/-- Head match of `-\s*-\s*-` (the `\s*` may cross newlines). -/
def mDashTriple (u : Str) : Option Nat :=
  match u with
  | c :: cs =>
    if c = '-' then
      let w1 := splitRun isWS cs
      match w1.2 with
      | d :: ds =>
        if d = '-' then
          let w2 := splitRun isWS ds
          match w2.2 with
          | e :: _ =>
            if e = '-' then some (1 + w1.1.length + 1 + w2.1.length + 1) else none
          | [] => none
        else none
      | [] => none
    else none
  | [] => none

/-- Lazy search for the dash triple: the first triple whose leading dash
lies on the comment's line.  Returns the offset of the character after
the triple. -/
def comment3From : Nat → Str → Option (Nat × Str)
  | 0, _ => none
  | _ + 1, [] => none
  | lim + 1, u =>
    match mDashTriple u with
    | some k => some (k, u.drop k)
    | none =>
      match u with
      | _ :: cs =>
        match comment3From lim cs with
        | some (n, rest) => some (n + 1, rest)
        | none => none
      | [] => none

/-- Matcher for `%.*?-\s*-\s*-.*`. -/
def mComment3 (s : Str) : Option Nat :=
  match s with
  | c :: t =>
    if c = '%' then
      match comment3From (lineLen t) t with
      | some (n, rest) => some (1 + n + lineLen rest)
      | none => none
    else none
  | [] => none

/-- Matcher for the chemical-formula pattern
`[A-Z][a-z]?[-]*-[A-Z][a-z]?[-]*` (the optional lowercase letter is
kept only when a hyphen follows it, mirroring the backtracking). -/
def mChemFormula (s : Str) : Option Nat :=
  match s with
  | c :: cs =>
    if isUpper c then
      let afterOpt :=
        match cs with
        | d :: ds =>
          if isLower d && (match ds with | e :: _ => decide (e = '-') | [] => false) then ds
          else cs
        | [] => cs
      let h := splitRun (fun d => d = '-') afterOpt
      if h.1 = [] then none
      else
        match h.2 with
        | c2 :: cs2 =>
          if isUpper c2 then
            let after2 :=
              match cs2 with
              | d :: ds => if isLower d then ds else cs2
              | [] => cs2
            let h2 := splitRun (fun d => d = '-') after2
            some (s.length - h2.2.length)
          else none
        | [] => none
    else none
  | [] => none

/-- Matcher for the material-name pattern `[A-Z][A-Za-z]*-[A-Za-z0-9]+`. -/
def mMaterial (s : Str) : Option Nat :=
  match s with
  | c :: _ =>
    if isUpper c then
      let l := splitRun isLetter s
      match l.2 with
      | d :: ds =>
        if d = '-' then
          let a := splitRun isAlnum ds
          if a.1 = [] then none else some (l.1.length + 1 + a.1.length)
        else none
      | [] => none
    else none
  | [] => none

/-- The default protection patterns, in evaluation order. -/
def protPatterns : List (Str → Option Nat) :=
  [mLit "Li-S".data, mLit "LiS".data, mLit "CoSe".data, mLit "TiCT".data,
   mLit "HKUST-1".data, mLit "PPy@S/GA-VD".data, mLit "Ni-HAB".data,
   mLit "USTB-27-Co".data, mLit "roll-to-roll".data, mLit "X-ray".data,
   mLit "charge-discharge".data, mLit "solid-liquid-solid".data,
   mLit "two-column".data, mLit "two-dimensional".data,
   mWordRange "Reference".data, mWordRange "page".data, mWordRange "equation".data,
   mNumRange, mBracketOpt, mComment1, mComment2, mComment3,
   mChemFormula, mMaterial]

/-- The placeholder `__PROTECT_{k}__`. -/
def placeholderTok (k : Nat) : Str := "__PROTECT_".data ++ natDigits k ++ "__".data

/-- Right-to-left replacement of the spans of one pattern pass:
`passText` is the text on which the spans were found (match texts are
taken from it), the state is `(text, placeholder map, counter)`. -/
def spliceSpans (passText : Str) :
    List (Nat × Nat) → Str × List (Str × Str) × Nat → Str × List (Str × Str) × Nat
  | [], st => st
  | (s, e) :: rest, (txt, mp, ctr) =>
    spliceSpans passText rest
      (txt.take s ++ placeholderTok ctr ++ txt.drop e,
       mp ++ [(placeholderTok ctr, (passText.drop s).take (e - s))], ctr + 1)

/-- One pattern pass of `_protect_scientific_content`. -/
def protect_pass (m : Str → Option Nat) (st : Str × List (Str × Str) × Nat) :
    Str × List (Str × Str) × Nat :=
  spliceSpans st.1 (scanSpans m st.1).reverse st

/-- Embeds `_protect_scientific_content` with the default pattern list. -/
def protect_scientific (content : Str) : Str × List (Str × Str) :=
  let r := protPatterns.foldl (fun st m => protect_pass m st) (content, [], 0)
  (r.1, r.2.1)

/-- Embeds `_restore_scientific_content`: each placeholder is replaced
by its original, in insertion order. -/
def restore_scientific (content : Str) (mp : List (Str × Str)) : Str :=
  mp.foldl (fun t kv => replaceAll kv.1 kv.2 t) content

/-! ### Command normalisation (`normalize_commands` and recovery) -/

/-- Matcher for `\\([a-zA-Z]+)\s*\{` with replacement `\\\1{`. -/
def mCmdSpaceBrace (s : Str) : Option (Nat × Str) :=
  match s with
  | c :: cs =>
    if c = '\\' then
      let l := splitRun isLetter cs
      if l.1 = [] then none
      else
        let w := splitRun isWS l.2
        match w.2 with
        | d :: _ =>
          if d = lbrace then
            some (1 + l.1.length + w.1.length + 1, '\\' :: l.1 ++ [lbrace])
          else none
        | [] => none
    else none
  | [] => none

/-- Brace contents: `s` starts just after an opening brace; returns the
contents up to the next closing brace and the rest after it. -/
def braceContents (s : Str) : Option (Str × Str) :=
  let r := splitRun (fun c => decide (c ≠ rbrace)) s
  match r.2 with
  | d :: rest => if d = rbrace then some (r.1, rest) else none
  | [] => none

/-- Capture of `\s*([^}]+?)\s*` against brace contents `R`: fails on
empty contents; all-whitespace contents capture their last character;
otherwise the stripped contents. -/
def lazyPlusGroup (R : Str) : Option Str :=
  match R with
  | [] => none
  | _ =>
    if pyStrip R = [] then some [R.getLastD ' ']
    else some (pyStrip R)

/-- Matcher for `\\NAME\s*\{\s*([^}]+?)\s*\}` with a replacement built
from the captured group. -/
def mCmdBraceStrip (name : Str) (rebuild : Str → Str) (s : Str) : Option (Nat × Str) :=
  match s with
  | c :: cs =>
    if c = '\\' && leadsWith name cs then
      let w := splitRun isWS (cs.drop name.length)
      match w.2 with
      | d :: rest =>
        if d = lbrace then
          match braceContents rest with
          | some (R, after2) =>
            match lazyPlusGroup R with
            | some g => some (s.length - after2.length, rebuild g)
            | none => none
          | none => none
        else none
      | [] => none
    else none
  | [] => none

/-- First-match alternation over several matchers (regex `|`). -/
def mAlt : List (Str → Option (Nat × Str)) → Str → Option (Nat × Str)
  | [], _ => none
  | m :: ms, s =>
    match m s with
    | some r => some r
    | none => mAlt ms s

/-- The seven fixed replacement patterns of `normalize_commands`
(`\\begin\s*\{\s*([^}]+?)\s*\}` and friends), in dictionary order. -/
def normalizeCmdNames : List Str :=
  ["begin".data, "end".data, "usepackage".data, "documentclass".data,
   "textbf".data, "emph".data, "item".data]

/-- The section-like pattern
`\\(section|subsection|subsubsection|title|author)\s*\{\s*([^}]+?)\s*\}`
whose replacement strips the captured group once more. -/
def mSectionLike : Str → Option (Nat × Str) :=
  mAlt (["section".data, "subsection".data, "subsubsection".data,
    "title".data, "author".data].map
      (fun n => mCmdBraceStrip n
        (fun g => '\\' :: n ++ lbrace :: pyStrip g ++ [rbrace])))

/-- Capture of `\s+([^}]+?)\s+` against brace contents `R` (the general
conservative pattern): leading and trailing whitespace of length at
least one is required around a nonempty lazy core. -/
def plusLazyPlusGroup (R : Str) : Option Str :=
  let w := splitRun isWS R
  if w.1 = [] then none
  else if w.2 = [] then
    if 3 ≤ R.length then some [R.getD (R.length - 2) ' '] else none
  else if pyRstrip w.2 = w.2 then none
  else some (pyRstrip w.2)

/-- Matcher for `\\([a-zA-Z]+)\s*\{\s+([^}]+?)\s+\}` → `\\\1{\2}`. -/
def mGeneralCmd (s : Str) : Option (Nat × Str) :=
  match s with
  | c :: cs =>
    if c = '\\' then
      let l := splitRun isLetter cs
      if l.1 = [] then none
      else
        let w := splitRun isWS l.2
        match w.2 with
        | d :: rest =>
          if d = lbrace then
            match braceContents rest with
            | some (R, after2) =>
              match plusLazyPlusGroup R with
              | some g =>
                some (s.length - after2.length, '\\' :: l.1 ++ lbrace :: g ++ [rbrace])
              | none => none
            | none => none
          else none
        | [] => none
    else none
  | [] => none

/-- Embeds `normalize_commands` (toggle enabled). -/
def normalize_commands (content : Str) : Str :=
  let c1 := subScan mCmdSpaceBrace content
  let c2 := normalizeCmdNames.foldl
    (fun t n => subScan (mCmdBraceStrip n
      (fun g => '\\' :: n ++ lbrace :: g ++ [rbrace])) t) c1
  let c3 := subScan mSectionLike c2
  subScan mGeneralCmd c3

/-- Matcher for `\\(textbf|emph|textit)\s+\{\s*([^}]*?)\s*\}` →
`\\\1{\2}` (recovery fix; the group may be empty and is stripped). -/
def mTextbfRecovery : Str → Option (Nat × Str) :=
  mAlt (["textbf".data, "emph".data, "textit".data].map (fun n s =>
    match s with
    | c :: cs =>
      if c = '\\' && leadsWith n cs then
        let w := splitRun isWS (cs.drop n.length)
        if w.1 = [] then none
        else
          match w.2 with
          | d :: rest =>
            if d = lbrace then
              match braceContents rest with
              | some (R, after2) =>
                some (s.length - after2.length, '\\' :: n ++ lbrace :: pyStrip R ++ [rbrace])
              | none => none
            else none
          | [] => none
      else none
    | [] => none))

/-- Index just after the last newline of a list, if any. -/
def lastNL : Str → Option Nat
  | [] => none
  | c :: cs =>
    match lastNL cs with
    | some k => some (k + 1)
    | none => if c = '\n' then some 0 else none

/-- Matcher for `\\CMD\{\s*$` (MULTILINE) → `\\CMD{}`: after the brace,
the greedy whitespace run is cut at the last position that is a line
end. -/
def mCmdEol (cmd : Str) (s : Str) : Option (Nat × Str) :=
  match s with
  | c :: cs =>
    if c = '\\' && leadsWith (cmd ++ [lbrace]) cs then
      let rest := cs.drop (cmd.length + 1)
      let w := splitRun isWS rest
      let k : Option Nat :=
        if w.2 = [] then some w.1.length
        else lastNL w.1
      match k with
      | some kk =>
        some (1 + cmd.length + 1 + kk, '\\' :: cmd ++ [lbrace, rbrace])
      | none => none
    else none
  | [] => none

/-- Embeds `_apply_command_recovery_fixes`. -/
def apply_command_recovery_fixes (content : Str) : Str :=
  let c1 := subScan mCmdSpaceBrace content
  let c2 := subScan mTextbfRecovery c1
  let c3 := subScan (mCmdEol "cite".data) c2
  subScan (mCmdEol "ref".data) c3

/-- Embeds `_normalize_commands_with_recovery` (the error detection has
no effect on the text). -/
def normalize_commands_with_recovery (content : Str) : Str :=
  apply_command_recovery_fixes (normalize_commands content)

/-! ### Bibliography, cross-references and spacing (Chunk C) -/

/-- Python `str.split(",")`: always returns at least one piece. -/
def splitComma : Str → List Str
  | [] => [[]]
  | c :: cs =>
    let r := splitComma cs
    if c = ',' then [] :: r
    else
      match r with
      | p :: ps => (c :: p) :: ps
      | [] => [[c]]

/-- Embeds `_format_citation_list`. -/
def format_citation_list (g : Str) : Str :=
  joinSep ", ".data ((splitComma g).map pyStrip)

/-- Embeds `format_bibliography_commands` followed by
`format_citation_commands`: the command list with each rebuild. -/
def format_bib_and_cites (content : Str) : Str :=
  let c1 := ["bibliography".data, "bibliographystyle".data].foldl
    (fun t n => subScan (mCmdBraceStrip n
      (fun g => '\\' :: n ++ lbrace :: g ++ [rbrace])) t) content
  ["cite".data, "citep".data, "citet".data, "citealt".data,
   "citealp".data, "citeauthor".data, "citeyear".data].foldl
    (fun t n => subScan (mCmdBraceStrip n
      (fun g => '\\' :: n ++ lbrace :: format_citation_list g ++ [rbrace])) t) c1

/-- Does the bibitem lookahead
`(?=\\bibitem|\\end\{thebibliography\}|$)` hold at the head of `s`
(`$` without MULTILINE: end of string or before a final newline)? -/
def bibStop (s : Str) : Bool :=
  match s with
  | [] => true
  | ['\n'] => true
  | _ => leadsWith "\\bibitem".data s || leadsWith "\\end\x7bthebibliography\x7d".data s

/-- Fuelled scan of lazy `.*?` (DOTALL) up to the first `bibStop`
position: returns the consumed part and the rest. -/
def bibRestScanF : Nat → Str → (Str × Str)
  | 0, s => ([], s)
  | _ + 1, [] => ([], [])
  | f + 1, c :: cs =>
    if bibStop (c :: cs) then ([], c :: cs)
    else
      let r := bibRestScanF f cs
      (c :: r.1, r.2)

/-- Matcher for the bibitem pattern
`\\bibitem\s*\{\s*([^}]+?)\s*\}(\s*.*?)(?=\\bibitem|\\end\{thebibliography\}|$)`
(DOTALL) with the `format_bibitem` replacement. -/
def mBibitem (s : Str) : Option (Nat × Str) :=
  match s with
  | c :: cs =>
    if c = '\\' && leadsWith "bibitem".data cs then
      let w := splitRun isWS (cs.drop 7)
      match w.2 with
      | d :: rest =>
        if d = lbrace then
          match braceContents rest with
          | some (R, after2) =>
            match lazyPlusGroup R with
            | some g =>
              let w2 := splitRun isWS after2
              let t := bibRestScanF w2.2.length w2.2
              let rest2 := w2.1 ++ t.1
              let rest3 :=
                if rest2 = [] then []
                else if rest2.headD ' ' = ' ' then rest2 else ' ' :: rest2
              some (s.length - after2.length + rest2.length,
                '\\' :: "bibitem".data ++ lbrace :: pyStrip g ++ rbrace :: rest3)
            | none => none
          | none => none
        else none
      | [] => none
    else none
  | [] => none

/-- Matcher for `(\n)(\s*\\NAME\{[^}]+\})(\n)` with replacement
`\1\n\2\n\3` (the spacing pass of `add_bibliography_spacing`). -/
def mBibSpacing (name : Str) (s : Str) : Option (Nat × Str) :=
  match s with
  | c :: cs =>
    if c = '\n' then
      let w := splitRun isWS cs
      if leadsWith ('\\' :: name ++ [lbrace]) w.2 then
        let rest := w.2.drop (name.length + 2)
        let r := splitRun (fun e => decide (e ≠ rbrace)) rest
        if r.1 = [] then none
        else
          match r.2 with
          | d :: rest2 =>
            if d = rbrace then
              match rest2 with
              | e :: _ =>
                if e = '\n' then
                  let g2 := w.1 ++ '\\' :: name ++ lbrace :: r.1 ++ [rbrace]
                  some (1 + g2.length + 1, '\n' :: '\n' :: g2 ++ '\n' :: ['\n'])
                else none
              | [] => none
            else none
          | [] => none
      else none
    else none
  | [] => none

/-- Embeds `add_bibliography_spacing`. -/
def add_bibliography_spacing (content : Str) : Str :=
  subScan (mBibSpacing "bibliographystyle".data)
    (subScan (mBibSpacing "bibliography".data) content)

/-- Embeds `format_bibliography` (toggle enabled). -/
def format_bibliography (content : Str) : Str :=
  add_bibliography_spacing (subScan mBibitem (format_bib_and_cites content))

/-- Matcher for `(\\CMD\{[^}]+\})([a-zA-Z])` → `\1 \2`. -/
def mRefThenLetter (cmd : Str) (s : Str) : Option (Nat × Str) :=
  match s with
  | c :: cs =>
    if c = '\\' && leadsWith (cmd ++ [lbrace]) cs then
      let rest := cs.drop (cmd.length + 1)
      let r := splitRun (fun e => decide (e ≠ rbrace)) rest
      if r.1 = [] then none
      else
        match r.2 with
        | d :: e :: _ =>
          if d = rbrace && isLetter e then
            some (1 + cmd.length + 1 + r.1.length + 1 + 1,
              '\\' :: cmd ++ lbrace :: r.1 ++ [rbrace, ' ', e])
          else none
        | _ => none
    else none
  | [] => none

/-- Matcher for `([a-zA-Z])(\\CMD\{[^}]+\})` → `\1 \2`. -/
def mLetterThenRef (cmd : Str) (s : Str) : Option (Nat × Str) :=
  match s with
  | c :: cs =>
    if isLetter c && leadsWith ('\\' :: cmd ++ [lbrace]) cs then
      let rest := cs.drop (cmd.length + 2)
      let r := splitRun (fun e => decide (e ≠ rbrace)) rest
      if r.1 = [] then none
      else
        match r.2 with
        | d :: _ =>
          if d = rbrace then
            some (1 + 1 + cmd.length + 1 + r.1.length + 1,
              c :: ' ' :: '\\' :: cmd ++ lbrace :: r.1 ++ [rbrace])
          else none
        | [] => none
    else none
  | [] => none

/-- Embeds `format_crossreferences` (both toggles enabled):
`format_crossref_commands` then `normalize_crossref_spacing`. -/
def format_crossreferences (content : Str) : Str :=
  let c1 := ["label".data, "ref".data, "pageref".data, "eqref".data].foldl
    (fun t n => subScan (mCmdBraceStrip n
      (fun g => '\\' :: n ++ lbrace :: g ++ [rbrace])) t) content
  ["ref".data, "pageref".data, "eqref".data].foldl
    (fun t cmd => subScan (mLetterThenRef cmd) (subScan (mRefThenLetter cmd) t)) c1

/-- Matcher for `([a-zA-Z0-9])\s*OP\s*([a-zA-Z0-9])` → `\1 OP \2`. -/
def mOpSpace (op : Char) (s : Str) : Option (Nat × Str) :=
  match s with
  | c :: cs =>
    if isAlnum c then
      let w := splitRun isWS cs
      match w.2 with
      | d :: rest =>
        if d = op then
          let w2 := splitRun isWS rest
          match w2.2 with
          | e :: _ =>
            if isAlnum e then
              some (1 + w.1.length + 1 + w2.1.length + 1, [c, ' ', op, ' ', e])
            else none
          | [] => none
        else none
      | [] => none
    else none
  | [] => none

/-- Matcher for `\{\s+` → `{` (and the bracket variant via `op`). -/
def mOpenWS (op : Char) (s : Str) : Option (Nat × Str) :=
  match s with
  | c :: cs =>
    if c = op then
      let w := splitRun isWS cs
      if w.1 = [] then none else some (1 + w.1.length, [op])
    else none
  | [] => none

/-- Matcher for `\s+\}` → `}` (and the bracket variant via `op`). -/
def mWSClose (op : Char) (s : Str) : Option (Nat × Str) :=
  match s with
  | c :: _ =>
    if isWS c then
      let w := splitRun isWS s
      match w.2 with
      | d :: _ => if d = op then some (w.1.length + 1, [op]) else none
      | [] => none
    else none
  | [] => none

/-- Embeds `fix_spacing` (toggle enabled): inner protection, the three
operator subs, the guarded brace subs, the bracket subs, restoration. -/
def fix_spacing (content : Str) : Str :=
  let pr := protect_scientific content
  let p1 := subScan (mOpSpace '=') pr.1
  let p2 := subScan (mOpSpace '+') p1
  let p3 := subScan (mOpSpace '*') p2
  let p4 :=
    if pr.2.any (fun kv => hasSub ['='] kv.2) then p3
    else subScan (mWSClose rbrace) (subScan (mOpenWS lbrace) p3)
  let p5 := subScan (mWSClose ']') (subScan (mOpenWS '[') p4)
  restore_scientific p5 pr.2

/-! ### Environment indentation and math formatting (Chunk D) -/

/-- Indentation prefix for level `n` (`indent_size` default 2). -/
def indentOf (n : Nat) : Str := List.replicate (2 * n) ' '

/-- The per-line loop of `format_environments`. -/
def fmtEnvGo : List Str → Nat → List Str
  | [], _ => []
  | l :: rest, lvl =>
    let st := pyStrip l
    if st = [] then [] :: fmtEnvGo rest lvl
    else
      let isEnd := leadsWith ("\\end".data ++ [lbrace]) st
      let cur : Nat :=
        if st = "\\end{document}".data then 0
        else if isEnd then lvl - 1
        else lvl
      let lvl2 : Nat :=
        if isEnd then lvl - 1
        else if leadsWith ("\\begin".data ++ [lbrace]) st then lvl + 1
        else lvl
      (indentOf cur ++ st) :: fmtEnvGo rest lvl2

/-- Embeds `format_environments` (toggle enabled, default indent 2). -/
def format_environments (content : Str) : Str :=
  joinNL (fmtEnvGo (splitNL content) 0)

/-- Matcher for `([a-zA-Z])\$` → `\1 $`. -/
def mLetterDollar (s : Str) : Option (Nat × Str) :=
  match s with
  | c :: d :: _ =>
    if isLetter c && d = '$' then some (2, [c, ' ', '$']) else none
  | _ => none

/-- Matcher for `\$([a-zA-Z])` → `$ \1`. -/
def mDollarLetter (s : Str) : Option (Nat × Str) :=
  match s with
  | c :: d :: _ =>
    if c = '$' && isLetter d then some (2, ['$', ' ', d]) else none
  | _ => none

/-- Matcher for `\$\s+` → `$`. -/
def mDollarWS (s : Str) : Option (Nat × Str) :=
  match s with
  | c :: cs =>
    if c = '$' then
      let w := splitRun isWS cs
      if w.1 = [] then none else some (1 + w.1.length, ['$'])
    else none
  | [] => none

/-- Matcher for `\s+\$` → `$`. -/
def mWSDollar (s : Str) : Option (Nat × Str) :=
  match s with
  | c :: _ =>
    if isWS c then
      let w := splitRun isWS s
      match w.2 with
      | d :: _ => if d = '$' then some (w.1.length + 1, ['$']) else none
      | [] => none
    else none
  | [] => none

/-- Matcher for `\s*([+\-=])\s*` → ` \1 ` (plain-text branch). -/
def mPlainOp (s : Str) : Option (Nat × Str) :=
  let w := splitRun isWS s
  match w.2 with
  | c :: rest =>
    if c = '+' || c = '-' || c = '=' then
      let w2 := splitRun isWS rest
      some (w.1.length + 1 + w2.1.length, [' ', c, ' '])
    else none
  | [] => none

/-- Matcher for `\s+` → a single space. -/
def mWSPlus (s : Str) : Option (Nat × Str) :=
  match s with
  | c :: _ =>
    if isWS c then
      let w := splitRun isWS s
      some (w.1.length, [' '])
    else none
  | [] => none

/-- Matcher for `\s{2,}` → a single space. -/
def mWS2 (s : Str) : Option (Nat × Str) :=
  match s with
  | c :: _ =>
    if isWS c then
      let w := splitRun isWS s
      if w.1.length ≥ 2 then some (w.1.length, [' ']) else none
    else none
  | [] => none

/-- `re.split` by `(\{[^}]*\})`, fuelled: pieces at even index are
outside any brace group, pieces at odd index are the groups. -/
def splitBracePartsF : Nat → Str → List Str
  | 0, s => [s]
  | f + 1, s =>
    match findFirst [lbrace] s with
    | none => [s]
    | some i =>
      let rest := s.drop (i + 1)
      match findFirst [rbrace] rest with
      | none => [s]
      | some j =>
        s.take i :: (lbrace :: rest.take j ++ [rbrace]) ::
          splitBracePartsF f (rest.drop (j + 1))

/-- Brace split with adequate fuel. -/
def splitBraceParts (s : Str) : List Str := splitBracePartsF s.length s

/-- Apply `f` to the pieces at even index, keep the others. -/
def mapEvens (f : Str → Str) : List Str → List Str
  | [] => []
  | [x] => [f x]
  | x :: y :: rest => f x :: y :: mapEvens f rest

/-- Character class of the lookbehind `(?<![\w_\^}])`. -/
def carefulBehind (c : Char) : Bool := isWordChar c || c = '^' || c = rbrace

/-- Character class of the lookahead `(?![\w_{])`. -/
def carefulAhead (c : Char) : Bool := isWordChar c || c = lbrace

/-- Matcher for `(?<![\w_\^}])\s*OP\s*(?![\w_{])` → ` OP ` with the
trailing whitespace backtracking one step when the lookahead fails. -/
def mCarefulOp (op : Char) (prev : Option Char) (s : Str) : Option (Nat × Str) :=
  if (prev.map carefulBehind).getD false then none
  else
    let w := splitRun isWS s
    match w.2 with
    | c :: rest =>
      if c = op then
        let w2 := splitRun isWS rest
        let aheadBad : Bool :=
          match w2.2 with
          | d :: _ => carefulAhead d
          | [] => false
        if ¬ aheadBad then some (w.1.length + 1 + w2.1.length, [' ', op, ' '])
        else if 1 ≤ w2.1.length then
          some (w.1.length + 1 + w2.1.length - 1, [' ', op, ' '])
        else none
      else none
    | [] => none

/-- Matcher for `([a-zA-Z])OP([a-zA-Z])` → `\1 OP \2`. -/
def mLetterOpLetter (op : Char) (s : Str) : Option (Nat × Str) :=
  match s with
  | a :: b :: c :: _ =>
    if isLetter a && b = op && isLetter c then
      some (3, [a, ' ', op, ' ', c])
    else none
  | _ => none

/-- The operator pass of `replace_operators_carefully` on one
outside-braces piece. -/
def opsCareful (part : Str) : Str :=
  subScan (mLetterOpLetter '-')
    (subScan (mLetterOpLetter '=')
      (subScan (mLetterOpLetter '+')
        (subScanP (mCarefulOp '-')
          (subScanP (mCarefulOp '+')
            (subScanP (mCarefulOp '=') part)))))

/-- Matcher for `\s*OP\s*` → ` OP ` (display/environment operator
pass, no lookaround). -/
def mOpWS (op : Char) (s : Str) : Option (Nat × Str) :=
  let w := splitRun isWS s
  match w.2 with
  | c :: rest =>
    if c = op then
      let w2 := splitRun isWS rest
      some (w.1.length + 1 + w2.1.length, [' ', op, ' '])
    else none
  | [] => none

/-- The operator pass of `replace_operators_outside_braces` on one
outside-braces piece. -/
def opsPlain (part : Str) : Str :=
  subScan (mOpWS '-') (subScan (mOpWS '+') (subScan (mOpWS '=') part))

/-- Matcher for `\s+_\s*` → `_`. -/
def mUnderscoreWS (s : Str) : Option (Nat × Str) :=
  match s with
  | c :: _ =>
    if isWS c then
      let w := splitRun isWS s
      match w.2 with
      | d :: rest =>
        if d = '_' then
          let w2 := splitRun isWS rest
          some (w.1.length + 1 + w2.1.length, ['_'])
        else none
      | [] => none
    else none
  | [] => none

/-- Matcher for `\s+\^\s*` → `^`. -/
def mCaretWS (s : Str) : Option (Nat × Str) :=
  match s with
  | c :: _ =>
    if isWS c then
      let w := splitRun isWS s
      match w.2 with
      | d :: rest =>
        if d = '^' then
          let w2 := splitRun isWS rest
          some (w.1.length + 1 + w2.1.length, ['^'])
        else none
      | [] => none
    else none
  | [] => none

/-- Matcher for
`\\frac\s*\{\s*([^}]*?)\s*\}\s*\{\s*([^}]*?)\s*\}` → `\\frac{\1}{\2}`. -/
def mFrac (s : Str) : Option (Nat × Str) :=
  match s with
  | c :: cs =>
    if c = '\\' && leadsWith "frac".data cs then
      let w := splitRun isWS (cs.drop 4)
      match w.2 with
      | d :: rest =>
        if d = lbrace then
          match braceContents rest with
          | some (R1, a1) =>
            let w2 := splitRun isWS a1
            match w2.2 with
            | e :: rest2 =>
              if e = lbrace then
                match braceContents rest2 with
                | some (R2, a2) =>
                  some (s.length - a2.length,
                    '\\' :: "frac".data ++ lbrace :: pyStrip R1 ++ rbrace ::
                      lbrace :: pyStrip R2 ++ [rbrace])
                | none => none
              else none
            | [] => none
          | none => none
        else none
      | [] => none
    else none
  | [] => none

/-- Matcher for
`\\CMD\s*_\s*\{\s*([^}]*?)\s*\}\s*\^\s*\{\s*([^}]*?)\s*\}` →
`\\CMD_{\1}^{\2}` (`\sum` and `\int`). -/
def mSubSup (cmd : Str) (s : Str) : Option (Nat × Str) :=
  match s with
  | c :: cs =>
    if c = '\\' && leadsWith cmd cs then
      let w0 := splitRun isWS (cs.drop cmd.length)
      match w0.2 with
      | u :: r0 =>
        if u = '_' then
          let w := splitRun isWS r0
          match w.2 with
          | d :: rest =>
            if d = lbrace then
              match braceContents rest with
              | some (R1, a1) =>
                let w2 := splitRun isWS a1
                match w2.2 with
                | h :: r2 =>
                  if h = '^' then
                    let w3 := splitRun isWS r2
                    match w3.2 with
                    | e :: rest2 =>
                      if e = lbrace then
                        match braceContents rest2 with
                        | some (R2, a2) =>
                          some (s.length - a2.length,
                            '\\' :: cmd ++ '_' :: lbrace :: pyStrip R1 ++ rbrace ::
                              '^' :: lbrace :: pyStrip R2 ++ [rbrace])
                        | none => none
                      else none
                    | [] => none
                  else none
                | [] => none
              | none => none
            else none
          | [] => none
        else none
      | [] => none
    else none
  | [] => none

/-- Concatenation of a list of pieces. -/
def joinAll (ps : List Str) : Str := ps.foldr (fun a b => a ++ b) []

/-- The common tail of the three math-content transforms: subscripts,
superscripts, fractions, sums, integrals. -/
def mathTail (t : Str) : Str :=
  subScan (mSubSup "int".data)
    (subScan (mSubSup "sum".data)
      (subScan mFrac
        (subScan mCaretWS (subScan mUnderscoreWS t))))

/-- Embeds `fix_math_content` on the captured group (without the
surrounding dollars). -/
def transformInline (t : Str) : Str :=
  pyStrip (subScan mWS2 (mathTail (joinAll (mapEvens opsCareful (splitBraceParts t)))))

/-- Embeds `fix_display_math_content` on the captured group. -/
def transformDisplay (t : Str) : Str :=
  pyStrip (subScan mWS2 (mathTail (joinAll (mapEvens opsPlain (splitBraceParts t)))))

/-- Embeds `fix_math_env_content` on the captured group. -/
def transformEnv (t : Str) : Str :=
  subScan mWS2
    (subScan (mOpWS '&') (mathTail (joinAll (mapEvens opsPlain (splitBraceParts t)))))

/-- Matcher for `\$([^$]+)\$` with the `fix_math_content` replacement. -/
def mInlineMath (s : Str) : Option (Nat × Str) :=
  match s with
  | c :: cs =>
    if c = '$' then
      let r := splitRun (fun e => decide (e ≠ '$')) cs
      if r.1 = [] then none
      else
        match r.2 with
        | d :: _ =>
          if d = '$' then
            some (1 + r.1.length + 1, '$' :: transformInline r.1 ++ ['$'])
          else none
        | [] => none
    else none
  | [] => none

/-- Matcher for `\$\$([^$]+)\$\$` with the display replacement. -/
def mDisplayMath (s : Str) : Option (Nat × Str) :=
  match s with
  | c :: d :: cs =>
    if c = '$' && d = '$' then
      let r := splitRun (fun e => decide (e ≠ '$')) cs
      if r.1 = [] then none
      else
        match r.2 with
        | e :: f :: _ =>
          if e = '$' && f = '$' then
            some (2 + r.1.length + 2, '$' :: '$' :: transformDisplay r.1 ++ ['$', '$'])
          else none
        | _ => none
    else none
  | _ => none

/-- Matcher for `\\begin\{ENV\}(.*?)\\end\{ENV\}` (DOTALL) with the
`fix_math_env_content` replacement (`group(0).replace(group(1), body)`). -/
def mMathEnv (env : Str) (s : Str) : Option (Nat × Str) :=
  let bTag := "\\begin".data ++ lbrace :: env ++ [rbrace]
  let eTag := "\\end".data ++ lbrace :: env ++ [rbrace]
  if leadsWith bTag s then
    let rest := s.drop bTag.length
    match findFirst eTag rest with
    | some i =>
      let g1 := rest.take i
      let g0 := bTag ++ g1 ++ eTag
      some (bTag.length + i + eTag.length,
        if g1 = [] then g0 else replaceAll g1 (transformEnv g1) g0)
    | none => none
  else none

/-- Embeds `format_math` (toggle enabled). -/
def format_math (content : Str) : Str :=
  let c1 := subScan mDollarLetter (subScan mLetterDollar content)
  let c2 := subScan mWSDollar (subScan mDollarWS c1)
  let c3 :=
    if hasSub ['$'] c2 then c2
    else
      joinNL ((splitNL c2).map (fun line =>
        if isBlank line then line
        else
          line.takeWhile isWS ++
            pyStrip (subScan mWSPlus (subScan mPlainOp (line.dropWhile isWS)))))
  let c4 := subScan mInlineMath c3
  let c5 := subScan mDisplayMath c4
  ["equation".data, "align".data, "gather".data, "multline".data,
   "split".data, "alignat".data].foldl (fun t e => subScan (mMathEnv e) t) c5

/-! ### Package sorting, table runs, quotes, endings (Chunk E) -/

/-- Match of `\\usepackage(?:\[[^\]]*\])?\{([^}]+)\}` at the head of
`s`, returning the captured package name. -/
def matchUsepackage (s : Str) : Option Str :=
  match s with
  | c :: cs =>
    if c = '\\' && leadsWith "usepackage".data cs then
      let r0 := cs.drop 10
      let r1 : Option Str :=
        match r0 with
        | '[' :: t =>
          let q := splitRun (fun e => decide (e ≠ ']')) t
          match q.2 with
          | _ :: u => some u
          | [] => none
        | _ => some r0
      match r1 with
      | some u =>
        match u with
        | d :: v =>
          if d = lbrace then
            let q2 := splitRun (fun e => decide (e ≠ rbrace)) v
            if q2.1 = [] then none
            else
              match q2.2 with
              | _ :: _ => some q2.1
              | [] => none
          else none
        | [] => none
      | none => none
    else none
  | [] => none

/-- Fuelled `re.search` of the usepackage pattern. -/
def searchPkgF : Nat → Str → Option Str
  | 0, _ => none
  | f + 1, s =>
    match matchUsepackage s with
    | some g => some g
    | none =>
      match s with
      | [] => none
      | _ :: cs => searchPkgF f cs

/-- `re.search` of the usepackage pattern: the first capture. -/
def searchPkg (s : Str) : Option Str := searchPkgF (s.length + 1) s

/-- Python string comparison `<` (code-point lexicographic). -/
def strLt : Str → Str → Bool
  | [], [] => false
  | [], _ :: _ => true
  | _ :: _, [] => false
  | a :: as, b :: bs =>
    if a.val < b.val then true
    else if b.val < a.val then false
    else strLt as bs

/-- The sort key of `sort_packages`. -/
def pkgKey (x : Str) : Str := (searchPkg x).getD []

/-- Stable insertion into a key-sorted list. -/
def insertByKey (x : Str) : List Str → List Str
  | [] => [x]
  | y :: ys => if strLt (pkgKey x) (pkgKey y) then x :: y :: ys else y :: insertByKey x ys

/-- Stable ascending sort by `pkgKey` (Python `list.sort(key=...)`). -/
def sortByKey : List Str → List Str
  | [] => []
  | x :: xs => insertByKey x (sortByKey xs)

/-- Indices of preamble lines whose stripped text contains a
usepackage command (`elif` gives lines with `\begin{document}`
priority). -/
def pkgPositions : List Str → Bool → Nat → List Nat
  | [], _, _ => []
  | l :: ls, inPre, i =>
    if hasSub "\\begin{document}".data l then pkgPositions ls false (i + 1)
    else if inPre && (searchPkg (pyStrip l)).isSome then i :: pkgPositions ls inPre (i + 1)
    else pkgPositions ls inPre (i + 1)

/-- First index at or after `j` that is not a package position. -/
def nextNonPkg (positions : List Nat) : Nat → Nat → Nat
  | 0, j => j
  | f + 1, j => if positions.contains j then nextNonPkg positions f (j + 1) else j

/-- The rebuild loop of `sort_packages` over enumerated lines, with the
result accumulated in reverse. -/
def sortRebuildGo (allLines : List Str) (positions : List Nat) (insertPos : Nat)
    (sorted : List Str) : List Str → Nat → List Str → List Str
  | [], _, acc => acc.reverse
  | l :: rest, i, acc =>
    if ¬ positions.contains i then
      sortRebuildGo allLines positions insertPos sorted rest (i + 1) (l :: acc)
    else if i = insertPos then
      let acc1 := if acc ≠ [] && ¬ isBlank (acc.headD []) then [] :: acc else acc
      let acc2 := sorted.reverse ++ acc1
      let nidx := nextNonPkg positions (positions.length + 1) (i + 1)
      let acc3 :=
        if nidx < allLines.length && ¬ isBlank (allLines.getD nidx []) then [] :: acc2
        else acc2
      sortRebuildGo allLines positions insertPos sorted rest (i + 1) acc3
    else sortRebuildGo allLines positions insertPos sorted rest (i + 1) acc

/-- Embeds `sort_packages` (toggle enabled). -/
def sort_packages (content : Str) : Str :=
  let lines := splitNL content
  let positions := pkgPositions lines true 0
  if positions = [] then content
  else
    let packages := positions.map (fun i => pyStrip (lines.getD i []))
    joinNL (sortRebuildGo lines positions (positions.headD 0) (sortByKey packages)
      lines 0 [])

/-- Flush of a pending table-row run through `align_table_rows`. -/
def flushRows (rs : List Str) : List Str :=
  if rs = [] then [] else align_table_rows rs

/-- Fuelled loop of `align_tables`: the flag says whether the scan is
inside a tabular/array region, the list accumulates pending rows. -/
def alignTablesF : Nat → Bool → List Str → List Str → List Str
  | 0, _, _, _ => []
  | _ + 1, false, _, [] => []
  | f + 1, false, _, l :: rest =>
    if hasSub "\\begin{tabular}".data l || hasSub "\\begin{array}".data l then
      l :: alignTablesF f true [] rest
    else l :: alignTablesF f false [] rest
  | _ + 1, true, tableRows, [] => flushRows tableRows
  | f + 1, true, tableRows, l :: rest =>
    if hasSub "\\end{tabular}".data l || hasSub "\\end{array}".data l then
      flushRows tableRows ++ l :: alignTablesF f false [] rest
    else if hasSub ['&'] l then alignTablesF f true (tableRows ++ [pyStrip l]) rest
    else flushRows tableRows ++ l :: alignTablesF f true [] rest

/-- Embeds `align_tables` (toggle enabled). -/
def align_tables (content : Str) : Str :=
  joinNL (alignTablesF ((splitNL content).length + 1) false [] (splitNL content))

/-- Length of the delimiter match of `normalize_quotes` at the head of
`s`: `\$[^$]*\$`, `\$\$[^$]*\$\$` or a verbatim block (the first
alternative subsumes the second at every position). -/
def mQuoteDelim (s : Str) : Option Nat :=
  match s with
  | c :: cs =>
    if c = '$' then
      let r := splitRun (fun e => decide (e ≠ '$')) cs
      match r.2 with
      | _ :: _ => some (1 + r.1.length + 1)
      | [] => none
    else if c = '\\' && leadsWith "begin{verbatim}".data cs then
      let rest := cs.drop 15
      match findFirst "\\end{verbatim}".data rest with
      | some i => some (1 + 15 + i + 14)
      | none => none
    else none
  | [] => none

/-- Fuelled search for the first delimiter match from position `i`. -/
def findMatchF (m : Str → Option Nat) : Nat → Str → Nat → Option (Nat × Nat)
  | 0, _, _ => none
  | f + 1, s, i =>
    match m s with
    | some len => some (i, len)
    | none =>
      match s with
      | [] => none
      | _ :: cs => findMatchF m f cs (i + 1)

/-- Fuelled `re.split` with a capturing delimiter: pieces at even
index are between delimiters, pieces at odd index are delimiters. -/
def splitCaptureF (m : Str → Option Nat) : Nat → Str → List Str
  | 0, s => [s]
  | f + 1, s =>
    match findMatchF m (s.length + 1) s 0 with
    | none => [s]
    | some (i, len) =>
      s.take i :: (s.drop i).take len :: splitCaptureF m f (s.drop (i + len))

/-- Matcher for `(?<!\\)"([^"]*)"` with LaTeX-quote replacement. -/
def mDQuote (prev : Option Char) (s : Str) : Option (Nat × Str) :=
  match s with
  | c :: cs =>
    if c = '"' && ¬ (prev = some '\\') then
      let r := splitRun (fun e => decide (e ≠ '"')) cs
      match r.2 with
      | _ :: _ => some (1 + r.1.length + 1, btick :: btick :: r.1 ++ [squote, squote])
      | [] => none
    else none
  | [] => none

/-- Matcher for `(?<!\\)(?<!\w)'([^']*)'(?!\w)` with LaTeX-quote
replacement. -/
def mSQuote (prev : Option Char) (s : Str) : Option (Nat × Str) :=
  match s with
  | c :: cs =>
    if c = squote && ¬ (prev = some '\\') && ¬ ((prev.map isWordChar).getD false) then
      let r := splitRun (fun e => decide (e ≠ squote)) cs
      match r.2 with
      | _ :: rest =>
        let ok : Bool :=
          match rest with
          | d :: _ => ¬ isWordChar d
          | [] => true
        if ok then some (1 + r.1.length + 1, btick :: r.1 ++ [squote]) else none
      | [] => none
    else none
  | [] => none

/-- Embeds `process_non_math_quotes`. -/
def process_non_math_quotes (t : Str) : Str :=
  subScanP mSQuote (subScanP mDQuote t)

/-- Embeds `normalize_quotes` (toggle enabled). -/
def normalize_quotes (content : Str) : Str :=
  joinAll (mapEvens process_non_math_quotes
    (splitCaptureF mQuoteDelim (content.length + 1) content))

/-- Embeds `normalize_line_endings`. -/
def normalize_line_endings (content : Str) : Str :=
  replaceAll ['\r'] ['\n'] (replaceAll ['\r', '\n'] ['\n'] content)

/-- Embeds `remove_trailing_whitespace` (toggle enabled). -/
def remove_trailing_whitespace (content : Str) : Str :=
  joinNL ((splitNL content).map pyRstrip)

/-- Embeds `ensure_final_newline` (toggle enabled). -/
def ensure_final_newline (content : Str) : Str :=
  if content ≠ [] && content.getLastD ' ' ≠ '\n' then content ++ ['\n']
  else content

/-! ### Pipeline assembly (Chunk F)

`check_content` only produces diagnostics and the plugin lists are
empty by default, so `_format_with_error_recovery` is the stage
composition below; `format_content` wraps it in protection. -/

/-- Embeds `_format_with_error_recovery` (all stage toggles at their
defaults; the plugin passes are identities). -/
def format_pipeline (content : Str) : Str :=
  ensure_final_newline
    (normalize_quotes
      (align_tables
        (compress_empty_lines 2
          (sort_packages
            (format_math
              (format_environments
                (fix_spacing
                  (format_crossreferences
                    (format_bibliography
                      (normalize_commands_with_recovery
                        (compress_empty_lines 2
                          (remove_trailing_whitespace
                            (normalize_line_endings content)))))))))))))

/-- Embeds `format_content` on the non-raising path (`use_single_pass`
is false by default). -/
def format_content (content : Str) : Str :=
  let pr := protect_scientific content
  restore_scientific (format_pipeline pr.1) pr.2

/-- Embeds `_attempt_partial_formatting`: basic cleanup with an
unconditionally appended newline. -/
def attempt_partial_formatting (content : Str) : Str :=
  joinNL ((splitNL (normalize_line_endings content)).map pyRstrip) ++ ['\n']

/-- Modelled from the spec: the degraded transform it promises —
normalize line endings, strip per-line trailing whitespace, ensure a
trailing newline. -/
def degradedSpec (content : Str) : Str :=
  ensure_final_newline (joinNL ((splitNL (normalize_line_endings content)).map pyRstrip))

/-- `format_content` for an arbitrary pipeline body: the body stands
for `_format_with_error_recovery`, and a `none` result stands for a
fault escaping the per-stage isolation, in which case the fallback
`_attempt_partial_formatting` runs on the original input. -/
def formatContentGeneral (body : Str → Option Str) (content : Str) : Str :=
  let pr := protect_scientific content
  match body pr.1 with
  | some r => restore_scientific r pr.2
  | none => attempt_partial_formatting content

/-! ## Theorems -/

@[simp] theorem rbrace_ne_lbrace : (rbrace = lbrace) = False := by decide

/-- The checker's scan agrees with the counter formulation: the stop
flag is governed by `scanCut` and the stack size by `openCount` of the
scanned prefix. -/
theorem brace_scan_spec (s : Str) : ∀ (st : List Nat) (i : Nat),
    (brace_scan s st i).2 = decide (scanCut s st.length < s.length) ∧
    (brace_scan s st i).1.length = openCount (s.take (scanCut s st.length)) st.length := by
  induction s with
  | nil => intro st i; refine ⟨by simp [brace_scan, scanCut], by simp [brace_scan, scanCut, openCount]⟩
  | cons c cs ih =>
    intro st i
    by_cases h1 : c = lbrace
    · subst h1
      have h := ih (i :: st) (i + 1)
      refine ⟨?_, ?_⟩
      · rw [show brace_scan (lbrace :: cs) st i = brace_scan cs (i :: st) (i + 1) by
          simp [brace_scan]]
        rw [h.1]
        simp only [scanCut, if_pos rfl, List.length_cons]
        simp [Nat.succ_lt_succ_iff]
      · rw [show brace_scan (lbrace :: cs) st i = brace_scan cs (i :: st) (i + 1) by
          simp [brace_scan]]
        rw [h.2]
        simp only [scanCut, if_pos rfl, List.length_cons, List.take_succ_cons, openCount]
        simp
    · by_cases h2 : c = rbrace
      · subst h2
        match st with
        | [] =>
          refine ⟨?_, ?_⟩
          · simp [brace_scan, scanCut, List.length_cons]
          · simp [brace_scan, scanCut, openCount]
        | p :: st2 =>
          have h := ih st2 (i + 1)
          refine ⟨?_, ?_⟩
          · rw [show brace_scan (rbrace :: cs) (p :: st2) i = brace_scan cs st2 (i + 1) by
              simp [brace_scan]]
            rw [h.1]
            simp only [scanCut, rbrace_ne_lbrace, if_false, List.length_cons]
            simp [Nat.succ_lt_succ_iff]
          · rw [show brace_scan (rbrace :: cs) (p :: st2) i = brace_scan cs st2 (i + 1) by
              simp [brace_scan]]
            rw [h.2]
            simp only [scanCut, rbrace_ne_lbrace, if_false, List.length_cons,
              List.take_succ_cons, openCount]
            simp
      · have h := ih st (i + 1)
        refine ⟨?_, ?_⟩
        · rw [show brace_scan (c :: cs) st i = brace_scan cs st (i + 1) by
            simp [brace_scan, h1, h2]]
          rw [h.1]
          simp only [scanCut, if_neg h1, if_neg h2, List.length_cons]
          simp [Nat.succ_lt_succ_iff]
        · rw [show brace_scan (c :: cs) st i = brace_scan cs st (i + 1) by
            simp [brace_scan, h1, h2]]
          rw [h.2]
          simp only [scanCut, if_neg h1, if_neg h2, List.take_succ_cons, openCount]

/-- The two diagnostic messages of the brace check are distinct. -/
theorem openMsg_ne_closingMsg (n : Nat) : (openMsg n = closingMsg) = False := by
  simp only [openMsg, closingMsg, eq_iff_iff, iff_false]
  intro h
  have h10 := congrArg (fun l => l[10]?) h
  simp at h10

/-- C4: for every input text, the brace check emits at most one
"unmatched closing braces" diagnostic, and its result is exactly: that
diagnostic when the scan stopped at an unmatched closer, followed by a
report of the exact number (`openCount`) of unmatched opening braces in
the scanned prefix, when that number is nonzero. -/
theorem C4_brace_check (s : Str) :
    ((check_brace_balance s).countP (fun m => decide (m = closingMsg)) ≤ 1) ∧
    check_brace_balance s =
      (if scanCut s 0 < s.length then [closingMsg] else []) ++
      (if openCount (s.take (scanCut s 0)) 0 = 0 then []
       else [openMsg (openCount (s.take (scanCut s 0)) 0)]) := by
  have h := brace_scan_spec s [] 0
  simp only [List.length_nil] at h
  have hchar : check_brace_balance s =
      (if scanCut s 0 < s.length then [closingMsg] else []) ++
      (if openCount (s.take (scanCut s 0)) 0 = 0 then []
       else [openMsg (openCount (s.take (scanCut s 0)) 0)]) := by
    unfold check_brace_balance
    rw [h.1]
    have hlen := h.2
    by_cases hnil : (brace_scan s [] 0).1 = []
    · rw [hnil] at hlen
      simp only [List.length_nil] at hlen
      simp [hnil, ← hlen]
    · have : (brace_scan s [] 0).1.length ≠ 0 := by
        simpa [List.length_eq_zero] using hnil
      rw [hlen] at this
      simp [hnil, this, ← hlen]
  refine ⟨?_, hchar⟩
  rw [hchar]
  by_cases hc : scanCut s 0 < s.length <;>
    by_cases ho : openCount (s.take (scanCut s 0)) 0 = 0 <;>
      simp [hc, ho, List.countP_cons, openMsg_ne_closingMsg]

/-- C5: the three concrete brace-balance examples behave as specified:
an unclosed `\section{Title` yields the unmatched-opening diagnostic, a
stray closing brace yields the unmatched-closing diagnostic, and the
balanced input yields no diagnostics. -/
theorem C5_brace_examples :
    (openMsg 1 ∈ check_content "\\section\x7bTitle".data) ∧
    (closingMsg ∈ check_content "\\section\x7dTitle\x7b".data) ∧
    check_content "\\section{Title}".data = [] := by
  refine ⟨?_, ?_, ?_⟩ <;> decide

/-- C6 counterexample: on `\begin{a}\end{b}` the end marker's name is
nowhere in the (nonempty) stack, yet the check emits an environment-
mismatch diagnostic and no "no corresponding \begin" diagnostic, contrary
to the claim that this case yields an "unmatched end — no begin"
diagnostic. -/
theorem C6_no_begin_counterexample :
    check_content "\\begin{a}\\end{b}".data
      = [mismatchMsg "a".data "b".data, missingEndMsg "a".data] ∧
    ∀ m ∈ check_content "\\begin{a}\\end{b}".data,
      hasSub "no corresponding".data m = false := by
  refine ⟨by decide, by decide⟩

/-- Mismatch recovery pops exactly the frames above the first matching
frame and then that frame itself. -/
theorem popUntil_split (env : Str) (above below : List Str) (hnm : env ∉ above) :
    popUntil env (above ++ env :: below) = (above, below) := by
  induction above with
  | nil => simp [popUntil]
  | cons a rest ih =>
    simp only [List.mem_cons, not_or] at hnm
    have hne : ¬ a = env := fun h => hnm.1 h.symm
    simp only [List.cons_append, popUntil, if_neg hne, List.append_eq, ih hnm.2]

/-- C6 (amended): the environment replay behaves as follows.  On a
begin marker the name is pushed.  On an end marker: with an empty stack
the "no corresponding \begin" diagnostic is emitted; with a matching
top the top is popped silently; when the name occurs deeper in the
stack, a mismatch diagnostic naming the expected and found environments
is emitted, every frame above the match is popped with an "unmatched
begin" diagnostic, and the match is popped; when the name is nowhere in
a nonempty stack, only the mismatch diagnostic is emitted and the stack
is left unchanged (the claim's "unmatched end — no begin" diagnostic is
reserved for the empty-stack case).  At end of input the issues and
remaining stack are returned, and `check_environment_balance` turns
each remaining frame into a missing-end diagnostic.  In particular the
itemize/enumerate example yields a mismatch diagnostic naming both
environments. -/
theorem C6_environment_replay_amended :
    (∀ evs env iss, env_replay ((true, env) :: evs) [] iss
        = env_replay evs [] (iss ++ [unmatchedEndMsg env])) ∧
    (∀ evs env st iss, env_replay ((true, env) :: evs) (env :: st) iss
        = env_replay evs st iss) ∧
    (∀ evs env top st iss, top ≠ env → env ∉ top :: st →
        env_replay ((true, env) :: evs) (top :: st) iss
          = env_replay evs (top :: st) (iss ++ [mismatchMsg top env])) ∧
    (∀ evs env top rest below iss, env ∉ top :: rest →
        env_replay ((true, env) :: evs) ((top :: rest) ++ env :: below) iss
          = env_replay evs below
              (iss ++ [mismatchMsg top env] ++ (top :: rest).map unmatchedBeginMsg)) ∧
    (∀ evs env st iss, env_replay ((false, env) :: evs) st iss
        = env_replay evs (env :: st) iss) ∧
    (∀ st iss, env_replay [] st iss = (iss, st)) ∧
    (mismatchMsg "itemize".data "enumerate".data ∈
        check_content "\\begin{itemize}\n\\item x\n\\end{enumerate}".data) ∧
    (missingEndMsg "itemize".data ∈
        check_content "\\begin{itemize}\n\\item x\n\\end{enumerate}".data) ∧
    (hasSub "itemize".data (mismatchMsg "itemize".data "enumerate".data) = true) ∧
    (hasSub "enumerate".data (mismatchMsg "itemize".data "enumerate".data) = true) := by
  refine ⟨?_, ?_, ?_, ?_, ?_, ?_, by decide, by decide, by decide, by decide⟩
  · intro evs env iss; rfl
  · intro evs env st iss
    simp [env_replay]
  · intro evs env top st iss hne hnm
    have hne2 : ¬ top = env := hne
    simp only [env_replay, if_neg hne2, if_neg hnm]
  · intro evs env top rest below iss hnm
    simp only [List.mem_cons, not_or] at hnm
    have hne : ¬ top = env := fun h => hnm.1 h.symm
    have hmem : env ∈ top :: (rest ++ env :: below) := by simp
    have hpop := popUntil_split env (top :: rest) below (by
      simp only [List.mem_cons, not_or]; exact hnm)
    simp only [List.cons_append] at hpop
    simp only [List.cons_append, env_replay, if_neg hne, if_pos hmem, hpop]
  · intro evs env st iss
    simp [env_replay]
  · intro st iss; rfl

/-- Witness for the amended C6 theorem: the deeper-match recovery case
applied at a concrete stack. -/
theorem C6_environment_replay_witness :
    env_replay [(true, "a".data)] ["b".data, "c".data, "a".data, "d".data] []
      = ([mismatchMsg "b".data "a".data, unmatchedBeginMsg "b".data,
          unmatchedBeginMsg "c".data], ["d".data]) := by
  have h := C6_environment_replay_amended.2.2.2.1 []
    "a".data "b".data ["c".data] ["d".data] [] (by decide)
  rw [show ("b".data :: ["c".data]) ++ "a".data :: ["d".data]
      = ["b".data, "c".data, "a".data, "d".data] by rfl] at h
  rw [h]
  rfl

/-! ### Lemmas about `findFirst` and block removal, toward C7 -/

/-- A pattern is a prefix of itself followed by anything. -/
theorem leadsWith_self_append (p x : Str) : leadsWith p (p ++ x) = true := by
  induction p with
  | nil => rfl
  | cons a ps ih => simp [leadsWith, ih]

/-- Unfolding of a zero hit of `findFirst`. -/
theorem findFirst_zero {pat s : Str} (h : findFirst pat s = some 0) :
    leadsWith pat s = true := by
  match s with
  | [] =>
    simp only [findFirst] at h
    split at h
    · assumption
    · cases h
  | c :: cs =>
    simp only [findFirst] at h
    split at h
    · assumption
    · simp only [Option.map_eq_some'] at h
      obtain ⟨k, _, hk⟩ := h
      omega

/-- Unfolding of a positive hit of `findFirst`. -/
theorem findFirst_succ {pat : Str} {c : Char} {cs : Str} {n : Nat}
    (h : findFirst pat (c :: cs) = some (n + 1)) :
    leadsWith pat (c :: cs) = false ∧ findFirst pat cs = some n := by
  simp only [findFirst] at h
  split at h
  · cases h
  · rename_i hlead
    simp only [Option.map_eq_some'] at h
    obtain ⟨k, hk, hkk⟩ := h
    have : k = n := by omega
    subst this
    exact ⟨by simpa using hlead, hk⟩

/-- Text without the begin tag is not changed by block removal. -/
theorem removeDelimitedF_none (bTag eTag : Str) :
    ∀ (fuel : Nat) (s : Str), findFirst bTag s = none →
      removeDelimitedF bTag eTag fuel s = s := by
  intro fuel
  induction fuel with
  | zero => intro s h; rfl
  | succ f ih =>
    intro s h
    match s with
    | [] => rfl
    | c :: cs =>
      have hlead : leadsWith bTag (c :: cs) = false := by
        simp only [findFirst] at h
        split at h
        · cases h
        · rename_i hlw; simpa using hlw
      have htail : findFirst bTag cs = none := by
        simp only [findFirst, hlead] at h
        simpa using h
      simp only [removeDelimitedF, hlead, Bool.and_eq_false_iff]
      rw [if_neg (by simp [hlead])]
      rw [ih cs htail]

/-- Block removal is insensitive to the exact fuel, as long as the fuel
covers the text length. -/
theorem removeDelimitedF_stable (bTag eTag : Str) :
    ∀ (f1 : Nat), ∀ (f2 : Nat) (s : Str), s.length ≤ f1 → s.length ≤ f2 →
      removeDelimitedF bTag eTag f1 s = removeDelimitedF bTag eTag f2 s := by
  intro f1
  induction f1 with
  | zero =>
    intro f2 s h1 h2
    have : s = [] := by
      cases s with
      | nil => rfl
      | cons c cs => simp at h1
    subst this
    cases f2 <;> rfl
  | succ f ih =>
    intro f2 s h1 h2
    match s with
    | [] => cases f2 <;> rfl
    | c :: cs =>
      match f2, h2 with
      | g + 1, h2 =>
        simp only [removeDelimitedF]
        by_cases hc : bTag ≠ [] ∧ leadsWith bTag (c :: cs) = true
        · rw [if_pos hc, if_pos hc]
          cases hj : findFirst eTag ((c :: cs).drop bTag.length) with
          | none => rfl
          | some j =>
            have hb1 : 1 ≤ bTag.length := by
              cases bTag with
              | nil => exact absurd rfl hc.1
              | cons x xs => simp
            have hlen : (((c :: cs).drop bTag.length).drop (j + eTag.length)).length ≤ cs.length := by
              simp only [List.length_drop, List.length_cons]
              omega
            exact ih g _ (by simp only [List.length_cons] at h1; omega)
              (by simp only [List.length_cons] at h2; omega)
        · rw [if_neg hc, if_neg hc]
          rw [ih g cs (by simp only [List.length_cons] at h1; omega)
            (by simp only [List.length_cons] at h2; omega)]

/-- Key decomposition: when the first begin tag of the text sits at the
end of `pre` and the first end tag after it closes `mid`, block removal
deletes exactly the delimited block and continues after it. -/
theorem removeDelimitedF_decomp (bTag eTag : Str) (hb : bTag ≠ []) :
    ∀ (pre : Str) (mid post : Str) (fuel : Nat),
      (pre ++ bTag ++ mid ++ eTag ++ post).length ≤ fuel →
      findFirst bTag (pre ++ bTag ++ mid ++ eTag ++ post) = some pre.length →
      findFirst eTag (mid ++ eTag ++ post) = some mid.length →
      removeDelimitedF bTag eTag fuel (pre ++ bTag ++ mid ++ eTag ++ post)
        = pre ++ removeDelimitedF bTag eTag (fuel - pre.length - 1) post := by
  intro pre
  induction pre with
  | nil =>
    intro mid post fuel hfuel h1 h2
    simp only [List.nil_append, List.length_nil] at h1 hfuel ⊢
    have hne : bTag ++ mid ++ eTag ++ post ≠ [] := by
      cases bTag with
      | nil => exact absurd rfl hb
      | cons x xs => simp
    have hlen1 : 1 ≤ (bTag ++ mid ++ eTag ++ post).length := by
      cases hxx : bTag ++ mid ++ eTag ++ post with
      | nil => exact absurd hxx hne
      | cons y ys => simp
    cases fuel with
    | zero => omega
    | succ f =>
      match hs : bTag ++ mid ++ eTag ++ post, hne with
      | c :: cs, _ =>
        have hlead : leadsWith bTag (c :: cs) = true := by
          rw [← hs]
          have : bTag ++ mid ++ eTag ++ post = bTag ++ (mid ++ eTag ++ post) := by
            simp [List.append_assoc]
          rw [this]
          exact leadsWith_self_append bTag _
        have hdrop : (c :: cs).drop bTag.length = mid ++ eTag ++ post := by
          rw [← hs]
          have : bTag ++ mid ++ eTag ++ post = bTag ++ (mid ++ eTag ++ post) := by
            simp [List.append_assoc]
          rw [this, List.drop_left]
        have hdrop2 : (mid ++ eTag ++ post).drop (mid.length + eTag.length) = post := by
          have : mid ++ eTag ++ post = (mid ++ eTag) ++ post := by simp [List.append_assoc]
          rw [this]
          exact List.drop_left' (by simp)
        show removeDelimitedF bTag eTag (f + 1) (c :: cs) = _
        simp only [removeDelimitedF]
        rw [if_pos ⟨hb, hlead⟩, hdrop, h2]
        show removeDelimitedF bTag eTag f
            ((mid ++ eTag ++ post).drop (mid.length + eTag.length)) = _
        rw [hdrop2]
        simp
  | cons a pre2 ih =>
    intro mid post fuel hfuel h1 h2
    simp only [List.cons_append, List.length_cons] at h1 hfuel ⊢
    cases fuel with
    | zero => simp at hfuel
    | succ f =>
      have hsplit := findFirst_succ h1
      simp only [removeDelimitedF]
      rw [if_neg (by
        simp only [ne_eq, not_and]
        intro hbn
        simpa using hsplit.1)]
      rw [ih mid post f (by simp only [List.length_append] at hfuel ⊢; omega) hsplit.2 h2]
      have harith : f - pre2.length - 1 = f + 1 - (pre2.length + 1) - 1 := by omega
      rw [harith]


/-- Removal of a well-delimited leftmost block: the block's contents
disappear entirely and removal continues after the block. -/
theorem removeDelimited_block (bTag eTag : Str) (hb : bTag ≠ [])
    (pre mid post : Str)
    (h1 : findFirst bTag (pre ++ bTag ++ mid ++ eTag ++ post) = some pre.length)
    (h2 : findFirst eTag (mid ++ eTag ++ post) = some mid.length) :
    removeDelimited bTag eTag (pre ++ bTag ++ mid ++ eTag ++ post)
      = pre ++ removeDelimited bTag eTag post := by
  have hb1 : 1 ≤ bTag.length := by
    cases bTag with
    | nil => exact absurd rfl hb
    | cons x xs => simp
  unfold removeDelimited
  rw [removeDelimitedF_decomp bTag eTag hb pre mid post _ le_rfl h1 h2]
  congr 1
  apply removeDelimitedF_stable
  · simp only [List.length_append]
    omega
  · exact le_rfl

/-- Prefix testing only looks at the pattern-length window. -/
theorem leadsWith_congr : ∀ (pat s1 s2 : Str),
    s1.take pat.length = s2.take pat.length → leadsWith pat s1 = leadsWith pat s2
  | [], _, _, _ => rfl
  | _ :: _, [], [], _ => rfl
  | _ :: _, [], _ :: _, h => by simp at h
  | _ :: _, _ :: _, [], h => by simp at h
  | p :: ps, c1 :: cs1, c2 :: cs2, h => by
    simp only [List.length_cons, List.take_succ_cons, List.cons.injEq] at h
    simp only [leadsWith, h.1, leadsWith_congr ps cs1 cs2 h.2]

/-- Prefix testing after a drop only looks at a window inside a shared
prefix. -/
theorem leadsWith_drop_congr (pat s1 s2 : Str) (p k : Nat)
    (hk : p + pat.length ≤ k) (h : s1.take k = s2.take k) :
    leadsWith pat (s1.drop p) = leadsWith pat (s2.drop p) := by
  apply leadsWith_congr
  rw [List.take_drop, List.take_drop]
  have e1 : s1.take (p + pat.length) = (s1.take k).take (p + pat.length) := by
    rw [List.take_take, Nat.min_eq_left hk]
  have e2 : s2.take (p + pat.length) = (s2.take k).take (p + pat.length) := by
    rw [List.take_take, Nat.min_eq_left hk]
  rw [e1, e2, h]

/-- A found first occurrence is a hit with no earlier hit. -/
theorem findFirst_elim (pat : Str) : ∀ (s : Str) (n : Nat),
    findFirst pat s = some n →
    leadsWith pat (s.drop n) = true ∧ ∀ m, m < n → leadsWith pat (s.drop m) = false
  | [], n, h => by
    simp only [findFirst] at h
    split at h
    · rename_i hl
      have hn : n = 0 := by simpa using h.symm
      subst hn
      exact ⟨by simpa using hl, by omega⟩
    · cases h
  | c :: cs, n, h => by
    simp only [findFirst] at h
    split at h
    · rename_i hl
      have hn : n = 0 := by simpa using h.symm
      subst hn
      exact ⟨by simpa using hl, by omega⟩
    · rename_i hl
      simp only [Option.map_eq_some'] at h
      obtain ⟨k, hk, rfl⟩ := h
      have ih := findFirst_elim pat cs k hk
      refine ⟨by simpa using ih.1, ?_⟩
      intro m hm
      cases m with
      | zero => simpa using hl
      | succ j =>
        simp only [List.drop_succ_cons]
        exact ih.2 j (by omega)

/-- A hit with no earlier hit is the found first occurrence. -/
theorem findFirst_intro (pat : Str) : ∀ (s : Str) (n : Nat),
    leadsWith pat (s.drop n) = true →
    (∀ m, m < n → leadsWith pat (s.drop m) = false) →
    findFirst pat s = some n
  | [], n, h1, h2 => by
    have hn : n = 0 := by
      by_contra hne
      have h0 := h2 0 (by omega)
      simp only [List.drop_nil] at h1 h0
      rw [h0] at h1
      cases h1
    subst hn
    simp only [List.drop_nil] at h1
    simp [findFirst, h1]
  | c :: cs, n, h1, h2 => by
    cases n with
    | zero =>
      simp only [List.drop_zero] at h1
      simp [findFirst, h1]
    | succ k =>
      have h0 : leadsWith pat (c :: cs) = false := by simpa using h2 0 (by omega)
      have ih := findFirst_intro pat cs k (by simpa using h1)
        (fun m hm => by simpa using h2 (m + 1) (by omega))
      simp [findFirst, h0, ih]

/-- A prefix hit pins the pattern-length head of the text. -/
theorem leadsWith_take_eq : ∀ (pat s : Str),
    leadsWith pat s = true → s.take pat.length = pat
  | [], _, _ => by simp
  | p :: ps, [], h => by cases h
  | p :: ps, c :: cs, h => by
    simp only [leadsWith, Bool.and_eq_true, decide_eq_true_eq] at h
    simp only [List.length_cons, List.take_succ_cons, leadsWith_take_eq ps cs h.2, h.1]

/-- The cut position lies inside the piece (or at its end). -/
theorem cutB_le (bTag : Str) : ∀ (t : Str), cutB bTag t ≤ t.length
  | [] => Nat.le_refl 0
  | c :: cs => by
    simp only [cutB]
    split
    · simp
    · simp only [List.length_cons]
      exact Nat.succ_le_succ (cutB_le bTag cs)

/-- At the cut position the begin tag starts. -/
theorem cutB_hit (bTag : Str) : ∀ (t : Str),
    leadsWith bTag ((t ++ bTag).drop (cutB bTag t)) = true
  | [] => by simpa using leadsWith_self_append bTag []
  | c :: cs => by
    simp only [cutB]
    split
    · rename_i h
      simpa using h
    · simpa only [List.cons_append, List.drop_succ_cons] using cutB_hit bTag cs

/-- Before the cut position the begin tag does not start. -/
theorem cutB_min (bTag : Str) : ∀ (t : Str) (m : Nat), m < cutB bTag t →
    leadsWith bTag ((t ++ bTag).drop m) = false
  | [], m, h => by simp [cutB] at h
  | c :: cs, m, h => by
    simp only [cutB] at h
    split at h
    · omega
    · rename_i hlw
      cases m with
      | zero => simpa using hlw
      | succ j =>
        simpa only [List.cons_append, List.drop_succ_cons] using
          cutB_min bTag cs j (by omega)

/-- Hits survive cutting a prefix before the hit and replacing the text
after the hit: the first end tag of the segment suffix, with anything
appended, is the segment's closing tag. -/
theorem findFirst_suffix_seg (eTag : Str) (X post : Str) (D p : Nat)
    (hp : p ≤ D) (h : findFirst eTag X = some D) (hX : X.length = D + eTag.length) :
    findFirst eTag (X.drop p ++ post) = some (D - p) := by
  have he := findFirst_elim eTag X D h
  have hlenA : (X.drop p).length = D + eTag.length - p := by
    simp [hX]
  apply findFirst_intro
  · have e1 : (X.drop p ++ post).drop (D - p) = (X.drop p).drop (D - p) ++ post :=
      List.drop_append_of_le_length (by omega)
    have e2 : (X.drop p).drop (D - p) = X.drop D := by
      rw [List.drop_drop]
      congr 1
      omega
    have e3 : X.drop D = eTag := by
      have h1 := leadsWith_take_eq eTag (X.drop D) he.1
      have h2 : (X.drop D).length = eTag.length := by simp [hX]
      rw [← h1]
      exact (List.take_of_length_le (by omega)).symm
    rw [e1, e2, e3]
    exact leadsWith_self_append eTag post
  · intro m hm
    have hcong : leadsWith eTag ((X.drop p ++ post).drop m)
        = leadsWith eTag ((X.drop p).drop m) := by
      apply leadsWith_drop_congr eTag _ _ m ((D - p) + eTag.length) (by omega)
      rw [List.take_append_of_le_length (by omega)]
    rw [hcong, List.drop_drop]
    exact he.2 (p + m) (by omega)

/-- Segment step of block removal, with no leftmost assumption on the
plain-text piece: the piece is kept up to its cut position, the rest of
the segment disappears, and removal continues after the block. -/
theorem removeDelimited_seg (bTag eTag : Str) (hb : bTag ≠ [])
    (t mid post : Str)
    (h : findFirst eTag (t ++ bTag ++ mid ++ eTag)
      = some (t.length + bTag.length + mid.length)) :
    removeDelimited bTag eTag (t ++ bTag ++ mid ++ eTag ++ post)
      = t.take (cutB bTag t) ++ removeDelimited bTag eTag post := by
  set k := cutB bTag t with hkdef
  have hk : k ≤ t.length := cutB_le bTag t
  -- reshape the document so that the kept prefix is the piece up to the cut
  have hsplit : (t ++ bTag).drop k = bTag ++ (t ++ bTag).drop (k + bTag.length) := by
    have h1 := leadsWith_take_eq bTag ((t ++ bTag).drop k) (cutB_hit bTag t)
    calc (t ++ bTag).drop k
        = ((t ++ bTag).drop k).take bTag.length ++ ((t ++ bTag).drop k).drop bTag.length :=
          (List.take_append_drop _ _).symm
      _ = bTag ++ (t ++ bTag).drop (k + bTag.length) := by
          rw [h1, List.drop_drop]
  have htb : t ++ bTag = t.take k ++ (bTag ++ (t ++ bTag).drop (k + bTag.length)) := by
    calc t ++ bTag = (t ++ bTag).take k ++ (t ++ bTag).drop k :=
          (List.take_append_drop _ _).symm
      _ = t.take k ++ (t ++ bTag).drop k := by
          rw [List.take_append_of_le_length hk]
      _ = t.take k ++ (bTag ++ (t ++ bTag).drop (k + bTag.length)) := by rw [hsplit]
  have hdoc : t ++ bTag ++ mid ++ eTag ++ post
      = t.take k ++ bTag ++ ((t ++ bTag).drop (k + bTag.length) ++ mid) ++ eTag ++ post := by
    calc t ++ bTag ++ mid ++ eTag ++ post
        = (t ++ bTag) ++ (mid ++ eTag ++ post) := by simp [List.append_assoc]
      _ = (t.take k ++ (bTag ++ (t ++ bTag).drop (k + bTag.length)))
            ++ (mid ++ eTag ++ post) := by rw [← htb]
      _ = t.take k ++ bTag ++ ((t ++ bTag).drop (k + bTag.length) ++ mid)
            ++ eTag ++ post := by simp [List.append_assoc]
  have hXlen : (t ++ bTag ++ mid ++ eTag).length
      = (t.length + bTag.length + mid.length) + eTag.length := by
    simp [List.length_append]
    omega
  have h2 : findFirst eTag (((t ++ bTag).drop (k + bTag.length) ++ mid) ++ eTag ++ post)
      = some ((t ++ bTag).drop (k + bTag.length) ++ mid).length := by
    have hseg := findFirst_suffix_seg eTag (t ++ bTag ++ mid ++ eTag) post
      (t.length + bTag.length + mid.length) (k + bTag.length) (by omega) h hXlen
    have edrop : (t ++ bTag ++ mid ++ eTag).drop (k + bTag.length)
        = (t ++ bTag).drop (k + bTag.length) ++ (mid ++ eTag) := by
      have e : t ++ bTag ++ mid ++ eTag = (t ++ bTag) ++ (mid ++ eTag) := by
        simp [List.append_assoc]
      rw [e, List.drop_append_of_le_length (by simp; omega)]
    rw [edrop] at hseg
    have elen : ((t ++ bTag).drop (k + bTag.length) ++ mid).length
        = t.length + bTag.length + mid.length - (k + bTag.length) := by
      simp [List.length_append]
      omega
    rw [elen]
    calc findFirst eTag (((t ++ bTag).drop (k + bTag.length) ++ mid) ++ eTag ++ post)
        = findFirst eTag ((t ++ bTag).drop (k + bTag.length) ++ (mid ++ eTag) ++ post) := by
          simp [List.append_assoc]
      _ = some (t.length + bTag.length + mid.length - (k + bTag.length)) := hseg
  have h1 : findFirst bTag (t.take k ++ bTag
      ++ ((t ++ bTag).drop (k + bTag.length) ++ mid) ++ eTag ++ post)
      = some (t.take k).length := by
    have hklen : (t.take k).length = k := by
      rw [List.length_take]
      omega
    rw [hklen]
    have e : t.take k ++ bTag ++ ((t ++ bTag).drop (k + bTag.length) ++ mid)
        ++ eTag ++ post = (t ++ bTag) ++ (mid ++ eTag ++ post) := by
      rw [← hdoc]
      simp [List.append_assoc]
    have hl : t.length + bTag.length ≤ (t ++ bTag).length := by
      simp only [List.length_append]
      omega
    have hshare : (t.take k ++ bTag ++ ((t ++ bTag).drop (k + bTag.length) ++ mid)
        ++ eTag ++ post).take (t.length + bTag.length)
        = (t ++ bTag).take (t.length + bTag.length) := by
      conv_lhs => rw [e]
      rw [List.take_append_of_le_length hl]
    have hbpos : 1 ≤ bTag.length := by
      cases bTag with
      | nil => exact absurd rfl hb
      | cons y ys => simp
    apply findFirst_intro
    · rw [leadsWith_drop_congr bTag _ (t ++ bTag) k (t.length + bTag.length)
        (by omega) hshare]
      exact cutB_hit bTag t
    · intro m hm
      rw [leadsWith_drop_congr bTag _ (t ++ bTag) m (t.length + bTag.length)
        (by omega) hshare]
      exact cutB_min bTag t m hm
  rw [hdoc]
  exact removeDelimited_block bTag eTag hb (t.take k)
    ((t ++ bTag).drop (k + bTag.length) ++ mid) post h1 h2

/-- Removal of an assembled document deletes every block and keeps the
skeleton: each plain-text piece up to its cut position, then whatever
removal makes of the closing text.  The result does not depend on the
block contents. -/
theorem removeDelimited_assemble (bTag eTag : Str) (hb : bTag ≠ []) :
    ∀ (ps : List (Str × Str)) (last : Str), segsOK bTag eTag ps = true →
      removeDelimited bTag eTag (assembleDoc bTag eTag ps last)
        = docSkeleton bTag (ps.map Prod.fst) ++ removeDelimited bTag eTag last
  | [], last, _ => by simp [assembleDoc, docSkeleton]
  | (t, x) :: ps, last, hok => by
    simp only [segsOK, Bool.and_eq_true, decide_eq_true_eq] at hok
    show removeDelimited bTag eTag
        (t ++ bTag ++ x ++ eTag ++ assembleDoc bTag eTag ps last) = _
    rw [removeDelimited_seg bTag eTag hb t x (assembleDoc bTag eTag ps last) hok.1]
    rw [removeDelimited_assemble bTag eTag hb ps last hok.2]
    simp [docSkeleton, List.append_assoc]

/-- C7: material strictly inside well-formed verbatim-style blocks
never contributes any diagnostic.  First conjunct: a document assembled
from any number of verbatim blocks, in any positions (the plain pieces
and the closing text are unconstrained, and may hold lstlisting blocks
or stray markers), yields the same `check_syntax` output whatever the
block contents are.  Second conjunct: two documents whose
verbatim-removal passes expose the same lstlisting skeleton (so both
may also hold verbatim blocks) yield the same output whatever the
lstlisting block contents are.  The `segsOK` hypotheses say each block
is well formed: its contents hold no end marker and none straddles a
boundary. -/
theorem C7_verbatim_exemption :
    (∀ (ps qs : List (Str × Str)) (last : Str),
      segsOK verbatimBegin verbatimEnd ps = true →
      segsOK verbatimBegin verbatimEnd qs = true →
      ps.map Prod.fst = qs.map Prod.fst →
      check_content (assembleDoc verbatimBegin verbatimEnd ps last)
        = check_content (assembleDoc verbatimBegin verbatimEnd qs last)) ∧
    (∀ (d1 d2 : Str) (ps qs : List (Str × Str)) (last : Str),
      removeDelimited verbatimBegin verbatimEnd d1
          = assembleDoc lstBegin lstEnd ps last →
      removeDelimited verbatimBegin verbatimEnd d2
          = assembleDoc lstBegin lstEnd qs last →
      segsOK lstBegin lstEnd ps = true →
      segsOK lstBegin lstEnd qs = true →
      ps.map Prod.fst = qs.map Prod.fst →
      check_content d1 = check_content d2) := by
  constructor
  · intro ps qs last hps hqs hmap
    unfold check_content remove_comments_and_verbatim
    rw [removeDelimited_assemble verbatimBegin verbatimEnd (by decide) ps last hps]
    rw [removeDelimited_assemble verbatimBegin verbatimEnd (by decide) qs last hqs]
    rw [hmap]
  · intro d1 d2 ps qs last hd1 hd2 hps hqs hmap
    unfold check_content remove_comments_and_verbatim
    rw [hd1, hd2]
    rw [removeDelimited_assemble lstBegin lstEnd (by decide) ps last hps]
    rw [removeDelimited_assemble lstBegin lstEnd (by decide) qs last hqs]
    rw [hmap]

/-- Witness for C7: changing the unbalanced contents of a verbatim
block, and of an lstlisting block in a document that also holds a
verbatim block, leaves the diagnostics unchanged. -/
theorem C7_verbatim_exemption_witness :
    (check_content (assembleDoc verbatimBegin verbatimEnd
        [("a".data, [rbrace])] "b".data)
      = check_content (assembleDoc verbatimBegin verbatimEnd
        [("a".data, [])] "b".data)) ∧
    (check_content (assembleDoc verbatimBegin verbatimEnd
        [("a".data, [rbrace])] (assembleDoc lstBegin lstEnd
          [("c".data, [rbrace])] "b".data))
      = check_content (assembleDoc verbatimBegin verbatimEnd
        [("a".data, [])] (assembleDoc lstBegin lstEnd
          [("c".data, [])] "b".data))) :=
  ⟨C7_verbatim_exemption.1 [("a".data, [rbrace])] [("a".data, [])] "b".data
      (by decide) (by decide) rfl,
    C7_verbatim_exemption.2
      (assembleDoc verbatimBegin verbatimEnd [("a".data, [rbrace])]
        (assembleDoc lstBegin lstEnd [("c".data, [rbrace])] "b".data))
      (assembleDoc verbatimBegin verbatimEnd [("a".data, [])]
        (assembleDoc lstBegin lstEnd [("c".data, [])] "b".data))
      [("ac".data, [rbrace])] [("ac".data, [])] "b".data
      (by decide) (by decide) (by decide) (by decide) rfl⟩

/-! ### C10: blank-line compression -/

/-- The compression loop keeps every blank run within the bound. -/
theorem compressLinesGo_runs (m : Nat) :
    ∀ (ls : List Str) (c : Nat),
      blankRunsLE m (min c m) (compressLinesGo m c ls) = true := by
  intro ls
  induction ls with
  | nil => intro c; rfl
  | cons l ls ih =>
    intro c
    by_cases hb : isBlank l = true
    · by_cases hc : c + 1 ≤ m
      · have hmin : min c m = c := by omega
        have hmin2 : min (c + 1) m = c + 1 := by omega
        simp only [compressLinesGo, hb, if_true, if_pos hc, blankRunsLE]
        rw [hmin]
        have hblank : isBlank ([] : Str) = true := by decide
        simp only [hblank, if_true]
        have := ih (c + 1)
        rw [hmin2] at this
        simp [hc, this]
      · have hmin : min c m = m := by omega
        have hmin2 : min (c + 1) m = m := by omega
        simp only [compressLinesGo, hb, if_true, if_neg hc]
        rw [hmin]
        have := ih (c + 1)
        rw [hmin2] at this
        exact this
    · have hb2 : isBlank l = false := by simpa using hb
      simp only [compressLinesGo, hb2, if_false, blankRunsLE]
      have := ih 0
      rw [show min 0 m = 0 by omega] at this
      simp [hb2, this]

/-- Within a run-bounded list, an all-blank prefix is short. -/
theorem blankRunsLE_take (m : Nat) :
    ∀ (ls : List Str) (d k : Nat), blankRunsLE m d ls = true →
      (∀ l ∈ ls.take k, isBlank l = true) → k ≤ ls.length →
      k = 0 ∨ d + k ≤ m := by
  intro ls
  induction ls with
  | nil => intro d k h hall hk; left; simpa using hk
  | cons l ls ih =>
    intro d k h hall hk
    match k with
    | 0 => left; rfl
    | j + 1 =>
      right
      have hl : isBlank l = true := by
        apply hall; simp [List.take_succ_cons]
      simp only [blankRunsLE, hl, if_true, Bool.and_eq_true, decide_eq_true_eq] at h
      have htail : ∀ x ∈ ls.take j, isBlank x = true := by
        intro x hx
        apply hall
        simp [List.take_succ_cons, hx]
      have := ih (d + 1) j h.2 htail (by simpa using hk)
      omega

/-- A run-bounded list of lines has no window of `m + 1` consecutive
blank lines. -/
theorem blankRunsLE_no_window (m : Nat) :
    ∀ (out : List Str) (cur i : Nat), blankRunsLE m cur out = true →
      m + 1 ≤ ((out.drop i).length) →
      ∃ l ∈ (out.drop i).take (m + 1), isBlank l = false := by
  intro out
  induction out with
  | nil => intro cur i h hlen; simp at hlen
  | cons l ls ih =>
    intro cur i h hlen
    match i with
    | 0 =>
      simp only [List.drop_zero] at hlen ⊢
      by_cases hb : isBlank l = true
      · simp only [blankRunsLE, hb, if_true, Bool.and_eq_true, decide_eq_true_eq] at h
        by_cases hall : ∀ x ∈ ls.take m, isBlank x = true
        · exfalso
          have := blankRunsLE_take m ls (cur + 1) m h.2 hall
            (by simp only [List.length_cons] at hlen; omega)
          omega
        · push_neg at hall
          obtain ⟨x, hx, hxb⟩ := hall
          refine ⟨x, ?_, by simpa using hxb⟩
          simp only [List.take_succ_cons, List.mem_cons]
          right
          exact hx
      · exact ⟨l, by simp [List.take_succ_cons], by simpa using hb⟩
    | j + 1 =>
      simp only [List.drop_succ_cons] at hlen ⊢
      by_cases hb : isBlank l = true
      · simp only [blankRunsLE, hb, if_true, Bool.and_eq_true] at h
        exact ih (cur + 1) j h.2 hlen
      · have hb2 : isBlank l = false := by simpa using hb
        simp only [blankRunsLE, hb2, if_false] at h
        exact ih 0 j h hlen

/-- Non-blank lines pass through the compression loop unchanged. -/
theorem compressLinesGo_filter (m : Nat) :
    ∀ (ls : List Str) (c : Nat),
      (compressLinesGo m c ls).filter (fun l => !(isBlank l))
        = ls.filter (fun l => !(isBlank l)) := by
  intro ls
  induction ls with
  | nil => intro c; rfl
  | cons l ls ih =>
    intro c
    by_cases hb : isBlank l = true
    · by_cases hc : c + 1 ≤ m
      · simp only [compressLinesGo, hb, if_true, if_pos hc]
        rw [List.filter_cons, List.filter_cons]
        have : isBlank ([] : Str) = true := by decide
        simp [this, hb, ih]
      · simp only [compressLinesGo, hb, if_true, if_neg hc]
        rw [List.filter_cons]
        simp [hb, ih]
    · have hb2 : isBlank l = false := by simpa using hb
      simp [compressLinesGo, hb2, ih]

/-- C10: with the toggle enabled and any configured bound `m`, the
compressed output (the checker's `result_lines`) contains no window of
`m + 1` consecutive blank lines, and the non-blank lines of the input
are preserved unchanged and in order ("empty line" here is the source's
notion: a line whose `strip()` is empty; blank lines that are kept are
normalised to truly empty lines). -/
theorem C10_compress_empty_lines (m : Nat) (content : Str) :
    compress_empty_lines m content
        = joinNL (compressLinesGo m 0 (splitNL content)) ∧
    (∀ i : Nat, m + 1 ≤ (((compressLinesGo m 0 (splitNL content)).drop i).length) →
      ∃ l ∈ ((compressLinesGo m 0 (splitNL content)).drop i).take (m + 1),
        isBlank l = false) ∧
    (compressLinesGo m 0 (splitNL content)).filter (fun l => !(isBlank l))
      = (splitNL content).filter (fun l => !(isBlank l)) := by
  refine ⟨rfl, ?_, compressLinesGo_filter m (splitNL content) 0⟩
  intro i hlen
  have h := compressLinesGo_runs m (splitNL content) 0
  rw [show min 0 m = 0 by omega] at h
  exact blankRunsLE_no_window m _ 0 i h hlen

/-- Witness for C10 at `m = 1` on a concrete document. -/
theorem C10_compress_empty_lines_witness :
    (∃ l ∈ ((compressLinesGo 1 0 (splitNL "a\n\n\n \nb".data)).drop 0).take 2,
      isBlank l = false) ∧
    (compressLinesGo 1 0 (splitNL "a\n\n\n \nb".data)).filter (fun l => !(isBlank l))
      = (splitNL "a\n\n\n \nb".data).filter (fun l => !(isBlank l)) :=
  ⟨(C10_compress_empty_lines 1 "a\n\n\n \nb".data).2.1 0 (by decide),
    (C10_compress_empty_lines 1 "a\n\n\n \nb".data).2.2⟩

/-! ### C9: table alignment -/

/-- Width update keeps the number of columns. -/
theorem updateWidths_length : ∀ (ws : List Nat) (cs : List Str),
    (updateWidths ws cs).length = ws.length := by
  intro ws
  induction ws with
  | nil => intro cs; cases cs <;> rfl
  | cons w ws ih =>
    intro cs
    cases cs with
    | nil => rfl
    | cons c cs => simp [updateWidths, ih]

/-- Pointwise effect of one width update. -/
theorem updateWidths_getD (i : Nat) : ∀ (ws : List Nat) (cs : List Str), i < ws.length →
    (updateWidths ws cs).getD i 0 = max (ws.getD i 0) ((cs.getD i []).length) := by
  induction i with
  | zero =>
    intro ws cs h
    match ws, h with
    | w :: ws, _ =>
      cases cs with
      | nil => simp [updateWidths]
      | cons c cs => simp [updateWidths]
  | succ j ih =>
    intro ws cs h
    match ws, h with
    | w :: ws, h =>
      cases cs with
      | nil => simp [updateWidths]
      | cons c cs =>
        simp only [updateWidths, List.getD_cons_succ]
        exact ih ws cs (by simpa using h)

/-- The width fold preserves the number of columns. -/
theorem tableFold_length : ∀ (rows : List (List Str)) (ws : List Nat),
    (rows.foldl (fun ws r => if 1 < r.length then updateWidths ws r else ws) ws).length
      = ws.length := by
  intro rows
  induction rows with
  | nil => intro ws; rfl
  | cons r rows ih =>
    intro ws
    simp only [List.foldl_cons]
    by_cases hr : 1 < r.length
    · rw [if_pos hr, ih, updateWidths_length]
    · rw [if_neg hr, ih]

/-- Pointwise value of the width fold: the running maximum over the
genuine rows. -/
theorem tableFold_getD (i : Nat) : ∀ (rows : List (List Str)) (ws : List Nat), i < ws.length →
    (rows.foldl (fun ws r => if 1 < r.length then updateWidths ws r else ws) ws).getD i 0
      = max (ws.getD i 0) (specWidth (rows.filter (fun r => 1 < r.length)) i) := by
  have hspec : ∀ (r : List Str) (trs : List (List Str)) (j : Nat),
      specWidth (r :: trs) j = max ((r.getD j []).length) (specWidth trs j) :=
    fun _ _ _ => rfl
  intro rows
  induction rows with
  | nil =>
    intro ws h
    simp [specWidth, maxList]
  | cons r rows ih =>
    intro ws h
    simp only [List.foldl_cons, List.filter_cons]
    by_cases hr : 1 < r.length
    · have hrd : decide (1 < r.length) = true := by simpa using hr
      rw [if_pos hr]
      have hlen : i < (updateWidths ws r).length := by rw [updateWidths_length]; exact h
      rw [ih (updateWidths ws r) hlen, updateWidths_getD i ws r h]
      simp only [hrd, if_true, hspec]
      rw [Nat.max_assoc]
    · have hrd : decide (1 < r.length) = false := by simpa using hr
      rw [if_neg hr, ih ws h]
      simp only [hrd]
      rfl

/-- Cell padding introduces no synthetic cells. -/
theorem padCells_length (ws : List Nat) (total : Nat) :
    ∀ (r : List Str) (i : Nat), (padCells ws total i r).length = r.length := by
  intro r
  induction r with
  | nil => intro i; rfl
  | cons c cs ih => intro i; simp [padCells, ih]

/-- Cell-level description of padding: the cell at list position `j`
(scan counter starting at `i`) is left-justified to its column width
exactly when its index is below `total - 1`, where `total` is the run
maximum `max_cols` at every call site; the row's own cell count plays
no role. -/
theorem padCells_getD (ws : List Nat) (total : Nat) :
    ∀ (r : List Str) (i j : Nat), j < r.length →
      (padCells ws total i r).getD j []
        = if i + j < total - 1 then ljust (r.getD j []) (ws.getD (i + j) 0)
          else r.getD j [] := by
  intro r
  induction r with
  | nil =>
    intro i j h
    simp at h
  | cons c cs ih =>
    intro i j h
    cases j with
    | zero => simp [padCells]
    | succ m =>
      simp only [padCells, List.getD_cons_succ]
      rw [ih (i + 1) m (by simpa using h)]
      have e : i + 1 + m = i + (m + 1) := by omega
      rw [e]

/-- C9 (amended): column widths are the maxima over the genuine
multi-cell rows (rows lacking a column contribute nothing); no
synthetic cells are added to short rows (padding preserves the cell
count); a cell is left-padded to its column width exactly when its
index is below `max_cols - 1`, where `max_cols` is the run maximum —
in particular the final cell of a SHORTER row is padded too, and in a
row without a `\\\\` terminator that padding survives as trailing
whitespace, while the cell at index `max_cols - 1` is never padded.
The concrete example aligns column 0 to width 4 and returns the rows
unchanged. -/
theorem C9_table_alignment_amended :
    (∀ (srs : List (List Str)) (mc i : Nat), i < mc →
      (tableColWidths srs mc).getD i 0
        = specWidth (srs.filter (fun r => 1 < r.length)) i) ∧
    (∀ (ws : List Nat) (total : Nat) (r : List Str) (i : Nat),
      (padCells ws total i r).length = r.length) ∧
    (∀ (ws : List Nat) (total : Nat) (r : List Str) (j : Nat), j < r.length →
      (padCells ws total 0 r).getD j []
        = if j < total - 1 then ljust (r.getD j []) (ws.getD j 0)
          else r.getD j []) ∧
    (align_table_rows ["Name & Age".data, "John & 25".data, "Jane & 300".data]
      = ["Name & Age".data, "John & 25".data, "Jane & 300".data]) ∧
    (specWidth ((["Name & Age".data, "John & 25".data, "Jane & 300".data].map
        split_rows_entry).filter (fun r => 1 < r.length)) 0 = 4) := by
  refine ⟨?_, ?_, ?_, by decide, by decide⟩
  · intro srs mc i hi
    unfold tableColWidths
    rw [tableFold_getD i srs (List.replicate mc 0) (by simpa using hi)]
    simp
  · intro ws total r i
    exact padCells_length ws total r i
  · intro ws total r j hj
    have := padCells_getD ws total r 0 j hj
    simpa using this

/-- Witness for the amended C9 theorem: the width formula applied at a
concrete run, and the padding rule applied at the final cell of a short
row (index 1 of 2 cells with run maximum 3), which is padded. -/
theorem C9_table_alignment_witness :
    ((tableColWidths [["a".data, "bbbb".data, "c".data], ["x".data, "y".data]] 3).getD 1 0
      = specWidth ([["a".data, "bbbb".data, "c".data],
          ["x".data, "y".data]].filter (fun r => 1 < r.length)) 1) ∧
    ((padCells [1, 4, 1] 3 0 ["x".data, "y".data]).getD 1 [] = ljust "y".data 4) :=
  ⟨C9_table_alignment_amended.1
      [["a".data, "bbbb".data, "c".data], ["x".data, "y".data]] 3 1 (by decide),
    by
      have h := C9_table_alignment_amended.2.2.1 [1, 4, 1] 3 ["x".data, "y".data] 1
        (by decide)
      rw [if_pos (by decide)] at h
      simpa using h⟩

/-- C9 counterexample: a row with fewer cells than the run maximum has
its final cell padded, so alignment does introduce trailing whitespace,
contrary to the claim. -/
theorem C9_trailing_whitespace_counterexample :
    align_table_rows ["a & bbbb & c".data, "x & y".data]
      = ["a & bbbb & c".data, "x & y   ".data] ∧
    pyRstrip ((align_table_rows ["a & bbbb & c".data, "x & y".data]).getD 1 [])
      ≠ (align_table_rows ["a & bbbb & c".data, "x & y".data]).getD 1 [] := by
  exact ⟨by decide, by decide⟩

set_option maxRecDepth 400000

/-- C1: the protect/restore round trip is not the identity.  On
`"Li-S __PROTECT_0__"` the pattern pass maps `Li-S` to the placeholder
`__PROTECT_0__`, which collides with the placeholder already present in
the input, so restoration rewrites both occurrences; on
`"% --- Li-S ---"` the comment pattern captures a placeholder produced
by an earlier pass into its stored original, so restoration leaves a
residual placeholder.  Both refute the spec's invariant
`restore(protect(text).text, protect(text).map) == text`. -/
theorem C1_round_trip_failure :
    restore_scientific (protect_scientific "Li-S __PROTECT_0__".data).1
        (protect_scientific "Li-S __PROTECT_0__".data).2 = "Li-S Li-S".data ∧
    restore_scientific (protect_scientific "Li-S __PROTECT_0__".data).1
        (protect_scientific "Li-S __PROTECT_0__".data).2 ≠ "Li-S __PROTECT_0__".data ∧
    restore_scientific (protect_scientific "% --- Li-S ---".data).1
        (protect_scientific "% --- Li-S ---".data).2 = "% --- __PROTECT_0__ ---".data := by
  refine ⟨by decide, by decide, by decide⟩

/-- The degraded fallback promised by the spec (trailing newline
ensured) differs from `_attempt_partial_formatting` (a newline appended
unconditionally) on an input that already ends in a newline. -/
theorem C2_fallback_counterexample :
    attempt_partial_formatting "a\n".data ≠ degradedSpec "a\n".data := by decide

/-- C2: amended fallback contract.  When a fault escapes the pipeline
(`body` returns `none`), `format_content` returns
`_attempt_partial_formatting` of the original input; that fallback is
never empty (for any input, not only non-empty ones); and it agrees
with the spec's degraded transform whenever the cleaned text is
non-empty and not already newline-terminated — otherwise it appends one
extra newline. -/
theorem C2_fallback_amended :
    ∀ (body : Str → Option Str) (c : Str),
      (body (protect_scientific c).1 = none →
        formatContentGeneral body c = attempt_partial_formatting c) ∧
      attempt_partial_formatting c ≠ [] ∧
      (joinNL ((splitNL (normalize_line_endings c)).map pyRstrip) ≠ [] →
        (joinNL ((splitNL (normalize_line_endings c)).map pyRstrip)).getLastD ' ' ≠ '\n' →
        attempt_partial_formatting c = degradedSpec c) := by
  intro body c
  refine ⟨?_, ?_, ?_⟩
  · intro h
    simp [formatContentGeneral, h]
  · simp [attempt_partial_formatting]
  · intro h1 h2
    show joinNL ((splitNL (normalize_line_endings c)).map pyRstrip) ++ ['\n'] =
      ensure_final_newline (joinNL ((splitNL (normalize_line_endings c)).map pyRstrip))
    rw [List.getLastD_eq_getLast?] at h2
    simp [ensure_final_newline, h1, List.getLastD_eq_getLast?, h2]

/-- Witness for the amended fallback contract at the faulting body and
the input `"a"`. -/
theorem C2_fallback_amended_witness :
    formatContentGeneral (fun _ => none) "a".data = attempt_partial_formatting "a".data ∧
    attempt_partial_formatting "a".data ≠ [] ∧
    attempt_partial_formatting "a".data = degradedSpec "a".data := by
  refine ⟨(C2_fallback_amended (fun _ => none) "a".data).1 rfl,
    (C2_fallback_amended (fun _ => none) "a".data).2.1,
    (C2_fallback_amended (fun _ => none) "a".data).2.2 (by decide) (by decide)⟩

/-- C3: `format_content` is not idempotent on
`"a\n\\bibliography{x}\nb"`, although that input is syntactically
well-formed (`check_content` finds no issue) and its protect/restore
round trip is clean: `add_bibliography_spacing` inserts one further
blank line on each side of the `\bibliography` line at every run. -/
theorem C3_idempotence_failure :
    check_content "a\n\\bibliography{x}\nb".data = [] ∧
    restore_scientific (protect_scientific "a\n\\bibliography{x}\nb".data).1
        (protect_scientific "a\n\\bibliography{x}\nb".data).2 =
      "a\n\\bibliography{x}\nb".data ∧
    format_content "a\n\\bibliography{x}\nb".data = "a\n\n\\bibliography{x}\n\nb\n".data ∧
    format_content "a\n\n\\bibliography{x}\n\nb\n".data =
      "a\n\n\n\\bibliography{x}\n\n\nb\n".data ∧
    format_content (format_content "a\n\\bibliography{x}\nb".data) ≠
      format_content "a\n\\bibliography{x}\nb".data := by
  refine ⟨by decide, by decide, by decide, by decide, by decide⟩

/-- The spec's example omits the trailing newline that
`ensure_final_newline` appends at the end of the pipeline. -/
theorem C8_math_example_counterexample :
    format_content "$x+y-z=a$".data ≠ "$x + y - z = a$".data := by decide

/-- Sub-claim of C8 as a helper: `mapEvens` keeps every odd-indexed
piece (a brace group of the split) unchanged. -/
theorem mapEvensOdd (f : Str → Str) :
    ∀ (ps : List Str) (i : Nat),
      (mapEvens f ps).getD (2 * i + 1) [] = ps.getD (2 * i + 1) []
  | [], _ => rfl
  | [x], i => by simp [mapEvens]
  | x :: y :: rest, i => by
    cases i with
    | zero => simp [mapEvens]
    | succ j =>
      have e : 2 * (j + 1) + 1 = (2 * j + 1) + 1 + 1 := by ring
      simp only [mapEvens, e, List.getD_cons_succ]
      exact mapEvensOdd f rest j

/-- C8: amended operator-spacing property.  The inline-math transform
splits the span by `(\{[^}]*\})` and rewrites operators only in the
even (outside-brace) pieces: every odd piece (a brace group) enters the
rebuild unchanged.  Later steps (subscript gluing, space collapsing)
may still touch brace contents, and the concrete example gains the
pipeline's trailing newline. -/
theorem C8_math_spacing_amended :
    (∀ (t : Str), transformInline t =
      pyStrip (subScan mWS2 (mathTail (joinAll (mapEvens opsCareful (splitBraceParts t)))))) ∧
    (∀ (ps : List Str) (i : Nat),
      (mapEvens opsCareful ps).getD (2 * i + 1) [] = ps.getD (2 * i + 1) []) ∧
    format_content "$x+y-z=a$".data = "$x + y - z = a$\n".data := by
  refine ⟨fun t => rfl, mapEvensOdd opsCareful, by decide⟩

end LatexFmt
